import Mathlib

set_option maxRecDepth 4000000

/-!
Shallow embedding of the go-verkle core (megaeth-labs/go-verkle):
`tree.go` (the stateful tree engine) and `stateless.go` (the stateless
tree engine), together with the parts of the repository that those two
files reference but that are not shipped alongside them (the new-style
`LeafNode`, `ParseStatelessNode`, `equalPaths`, ...), which are modelled
from the specification where needed.

Modelling conventions:
* Go byte slices are `List Nat` (each entry a byte value).
* The scalar field `Fr` and the curve group `G1`/`Point` are external
  collaborators (spec section 1: "Treated as an opaque library").  The
  prime-order group is modelled by its additive structure: `Point := Int`
  with the neutral element `0` and the distinguished generator `1`
  (faithful in that the generator of the prime-order subgroup is not the
  identity).  `Fr := Int`, scalar action is multiplication, and the
  canonical scalar image `toFr` of a point is modelled as a fixed
  deterministic function.  No claim below depends on any property of
  these stand-ins beyond determinism, group laws on the values actually
  computed, and generator ≠ identity.
* Go maps are association lists `List (Nat × α)`; the list order models
  the (observable, nondeterministic) map iteration order.  Lookup,
  update and delete are order-preserving.
* Mutation is modelled by explicit state passing.  Methods that can
  leave a partially-mutated receiver behind on error return a pair of
  the new state and an optional error, mirroring Go pointer mutation.
* Unbounded recursion (resolver-driven descent, leaf-split chains) is
  modelled with an explicit fuel parameter; running out of fuel yields a
  dedicated error that the Go code cannot produce on terminating runs.
-/

namespace GoVerkle

/-- Go byte slices. -/
abbrev Bytes := List Nat

/-- The scalar field of the curve, modelled additively (external library). -/
abbrev Fr := Int

/-- A point of the prime-order subgroup, modelled additively (external library). -/
abbrev Point := Int

/-- The group identity (`bls.ZERO_G1` / the banderwagon identity). -/
def PointIdentity : Point := 0

/-- The distinguished group generator (`Generator()` / `bls.GenG1`).
In the real curve the generator is not the identity; the model keeps
that fact by using `1`. -/
def PointGenerator : Point := 1

/-- Little-endian interpretation of a byte string as an integer. -/
def intFromLE : Bytes → Int
  | [] => 0
  | b :: rest => (b : Int) + 256 * intFromLE rest

/-- Modelled stand-in for the SRS basis points `SRS[i]`
(`cfg.conf.SRSPrecompPoints.SRS` / `treeConfig.lg1`): opaque fixed
group elements.  No claim depends on their values. -/
def SRS (i : Nat) : Point := (i : Int) + 1

/-- Modelled stand-in for the canonical scalar image of a group element
(`toFr` / `MapToScalarField`): a fixed deterministic function. -/
def toFr (p : Point) : Fr := p

/-- The error enumeration used by both files. -/
inductive GoErr where
  | insertIntoHash
  | readInvalidChild
  | valueNotPresent
  | notSupportedInStateless
  | insertIntoOtherStem
  | statelessStatefulMix
  | resolverFailed
  | parseFailed
  | panicked
  | outOfFuel
  deriving DecidableEq, Repr

/-! ## Old-style tree (`tree.go`)

`tree.go` configures the tree by a bit width; the byte-oriented claims
use width 8 (one byte consumed per level, 256 children), for which
`offset2Key(key, offset, 8) = key[offset/8]`.  The `TreeConfig` type
itself is not under `src/`; only `width = 8` and `nodeWidth = 256`
enter the embedded code paths. -/

namespace Old

/-- Node taxonomy of `tree.go` (the `accountLeaf` variant is unused by
every claim and is omitted; no embedded code path constructs one). -/
inductive ONode where
  | emptyNode : ONode
  | hashedOld (hash : Bytes) (commitment : Option Point) : ONode
  | leafOld (key : Bytes) (value : Bytes) : ONode
  | internalOld (children : Nat → ONode) (depth : Nat) (commitment : Option Point) : ONode

open ONode

/-- `offset2Key(key, offset, 8) = key[offset/8]` (tree.go, width 8). -/
def offset2Key (key : Bytes) (offset : Nat) : Nat := key.getD (offset / 8) 0

/-- All-empty children array of `newInternalNode`. -/
def allEmpty : Nat → ONode := fun _ => emptyNode

/-- `New(8)`: a fresh root, depth 0, no cached commitment (tree.go `New`). -/
def newRoot : ONode := internalOld allEmpty 0 none

/-- `InternalNode.Insert` (tree.go lines 195-238), width 8.  The fuel
parameter bounds the leaf-split recursion (`newBranch.Insert`), which Go
bounds only by the keys differing at some byte; exhausting it yields
`GoErr.outOfFuel`, which terminating Go executions never produce.
The state is returned even on error, mirroring in-place mutation (the
cached commitment is cleared before the child dispatch). -/
def insertO : Nat → ONode → Bytes → Bytes → ONode × Option GoErr
  | 0, n, _, _ => (n, some .outOfFuel)
  | fuel + 1, internalOld children depth _, key, value =>
    -- the cached commitment is cleared on modification; the dispatch below
    -- rebuilds the node with commitment `none` in every branch
    let nChild := offset2Key key depth
    match children nChild with
    | emptyNode =>
        (internalOld (Function.update children nChild (leafOld key value)) depth none, none)
    | hashedOld _ _ =>
        (internalOld children depth none, some .insertIntoHash)
    | leafOld ckey cvalue =>
        if ckey = key then
          (internalOld (Function.update children nChild (leafOld ckey value)) depth none, none)
        else
          let nextExisting := offset2Key ckey (depth + 8)
          let nextInserted := offset2Key key (depth + 8)
          if nextInserted ≠ nextExisting then
            -- next word differs: last level, both leaves placed directly
            let newBranch := internalOld
              (Function.update (Function.update allEmpty nextExisting (leafOld ckey cvalue))
                nextInserted (leafOld key value)) (depth + 8) none
            (internalOld (Function.update children nChild newBranch) depth none, none)
          else
            -- next word agrees: move the old leaf down and recurse
            let newBranch := internalOld
              (Function.update allEmpty nextExisting (leafOld ckey cvalue)) (depth + 8) none
            let r := insertO fuel newBranch key value
            (internalOld (Function.update children nChild r.1) depth none, r.2)
    | internalOld c d cm =>
        let r := insertO fuel (internalOld c d cm) key value
        (internalOld (Function.update children nChild r.1) depth none, r.2)
  | _ + 1, n, _, _ => (n, some .panicked)

/-- `InternalNode.Get` (tree.go lines 383-392) together with the leaf
dispatch (`leafNode.Get`, lines 645-650).  Read-only in the source
(no field of any node is written on this path), hence a pure function
of the tree here.  `empty`, hashed and nil children all yield the error
`"trying to read from an invalid child"`. -/
def invalidReadChild : ONode → Bool
  | emptyNode => true
  | hashedOld _ _ => true
  | _ => false

def getO : ONode → Bytes → Except GoErr Bytes
  | emptyNode, _ => .error .readInvalidChild
  | hashedOld _ _, _ => .error .readInvalidChild
  | leafOld ckey cvalue, k =>
      if k = ckey then .ok cvalue else .error .valueNotPresent
  | internalOld children depth _, k =>
    if invalidReadChild (children (offset2Key k depth)) then .error .readInvalidChild
    else getO (children (offset2Key k depth)) k

/-- Number of internal nodes traversed when descending along `key`
(the length of the branch of internal nodes holding that key). -/
def pathInternalCount : ONode → Bytes → Nat
  | internalOld children depth _, key =>
      pathInternalCount (children (offset2Key key depth)) key + 1
  | _, _ => 0

/-- Descend `steps` levels along `key` through internal nodes. -/
def descendSteps : ONode → Bytes → Nat → ONode
  | n, _, 0 => n
  | internalOld children depth _, key, steps + 1 =>
      descendSteps (children (offset2Key key depth)) key steps
  | n, _, _ + 1 => n

/-- Modelled stand-in for `hashToFr ∘ Hash` on child nodes
(tree.go lines 394-429): an opaque deterministic function of the
child's hash bytes.  Never evaluated by any claim. -/
def hashToFrM (h : Bytes) : Fr := intFromLE h

/-- Modelled stand-in for `sha256(ToCompressedG1(point))`: an opaque
deterministic function.  Never evaluated by any claim. -/
def pointHashM (p : Point) : Bytes := [(p.natAbs % 256)]

/-- `InternalNode.ComputeCommitment` (tree.go lines 431-468): if a
commitment is cached return it, otherwise build the polynomial
(`0` for `empty` children — skipped in the sum exactly as
`bls.EqualZero` skips them — and the hash image `hashToFr(child.Hash())`
otherwise) and sum `poly[i]·SRS[i]` starting from `ZERO_G1`; the
multi-exponentiation branch (≥ 110 non-empty children) computes the same
sum.  Child-cache memoization is not threaded back (it only memoizes).
On a `leafNode`/`empty` receiver `ComputeCommitment` is never reached via
the internal-node recursion; those cases return the identity here
(`empty`) resp. are unreachable (`leafNode` panics in Go). -/
def commitmentOf (fuel : Nat) : ONode → Point
  | ONode.internalOld children _ cm =>
    match cm with
    | some c => c
    | none =>
      match fuel with
      | 0 => PointIdentity
      | fuel + 1 =>
        (List.range 256).foldl
          (fun acc i =>
            let e := match children i with
              | ONode.emptyNode => 0
              | ONode.hashedOld h _ => hashToFrM h
              | ONode.leafOld k v => hashToFrM (k ++ v)
              | n => hashToFrM (pointHashM (commitmentOf fuel n))
            if e = 0 then acc else acc + e * SRS i)
          PointIdentity
  | ONode.hashedOld h c => c.getD (hashToFrM h * PointGenerator)
  | _ => PointIdentity

end Old

/-! ## Stateless tree (`stateless.go`)

`stateless.go` belongs to a newer revision of the repository: it uses the
byte-per-level layout (`NodeWidth = 256`, `offset2key(key, depth) =
key[depth]`, 31-byte stems) and refers to companion declarations
(`LeafNode`, `NewLeafNode`, `equalPaths`, `leafToComms`,
`ParseStatelessNode`, `HashedNode`, `Empty`, ...) that are not under
`src/`; those are modelled from the spec where an embedded code path
needs them, each marked `Modelled from the spec`. -/

namespace SL

/-- Generic association-list lookup; Go map indexing returns the zero
value for absent keys, which callers encode via `Option`. -/
def alookup {κ α : Type} [DecidableEq κ] : List (κ × α) → κ → Option α
  | [], _ => none
  | (k, v) :: rest, i => if k = i then some v else alookup rest i

/-- Association-list write (`m[k] = v`): replaces in place or appends. -/
def aset {κ α : Type} [DecidableEq κ] : List (κ × α) → κ → α → List (κ × α)
  | [], i, v => [(i, v)]
  | (k, w) :: rest, i, v => if k = i then (i, v) :: rest else (k, w) :: aset rest i v

/-- Association-list delete (`delete(m, k)`). -/
def adel {κ α : Type} [DecidableEq κ] : List (κ × α) → κ → List (κ × α)
  | [], _ => []
  | (k, w) :: rest, i => if k = i then adel rest i else (k, w) :: adel rest i

/-- `offset2key(key, depth) = key[depth]` (one byte consumed per level). -/
def offset2key (key : Bytes) (depth : Nat) : Nat := key.getD depth 0

/-- Modelled from the spec (repo helper `equalPaths`, absent from src/):
two keys/stems agree on their 31-byte stem part. -/
def equalPaths (k1 k2 : Bytes) : Prop := k1.take 31 = k2.take 31

instance : ∀ k1 k2, Decidable (equalPaths k1 k2) := fun k1 k2 => by
  unfold equalPaths; infer_instance

/-- Modelled from the spec §4.1 (`leafToComms`, absent from src/): split a
value into the two scalars `(lo, hi)`; a present value gets the leaf
marker `2^128` added to the low half; an absent/empty value yields
`(0, 0)`. -/
def leafToComms (v : Bytes) : Fr × Fr :=
  if v = [] then (0, 0)
  else (intFromLE (v.take 16) + 2 ^ 128, intFromLE (v.drop 16))

/-- Modelled from the spec (`StemFromBytes`, absent from src/): the stem
encoded as a field scalar. -/
def stemToFr (stem : Bytes) : Fr := intFromLE stem

/-- Modelled stand-in for deserializing a 32-byte compressed point
(absent from src/); deterministic function of the bytes. -/
def pointFromBytes (b : Bytes) : Point := intFromLE b

/-- Little-endian fixed-width byte encoding (for `Point.Bytes()`). -/
def natToLE : Nat → Nat → Bytes
  | 0, _ => []
  | len + 1, n => (n % 256) :: natToLE len (n / 256)

/-- Modelled stand-in for `Point.Bytes()` (32-byte compressed form). -/
def pointToBytes (p : Point) : Bytes := natToLE 32 p.natAbs

/-- New-style `LeafNode` (extension-and-suffix leaf).  Modelled from the
spec §3 and §4.3; the type lives in a repository file not under src/.
`values` is the 256-entry slice (nil entries = absent slot); the
sub-commitments and the top commitment are nil pointers until `Commit`. -/
structure LeafData where
  stem : Bytes
  values : List (Option Bytes)
  c1 : Option Point
  c2 : Option Point
  commitment : Option Point
  depth : Nat

/-- The mutable fields of a `StatelessNode` (stateless.go lines 38-70),
parametric in the node type so the recursive knot can be tied below.
`Option` on the maps distinguishes Go nil maps from allocated empty
maps; map values of type `Option α` additionally record entries that
store a nil interface/slice. -/
structure SNCore (α : Type) where
  children : Option (List (Nat × Option α))
  unresolved : Option (List (Nat × Bytes))
  values : Option (List (Nat × Option Bytes))
  stem : Bytes
  depth : Nat
  count : Nat
  hash : Option Fr
  cow : Option (List (Nat × Point))
  commitment : Point
  c1 : Option Point
  c2 : Option Point

/-- A `VerkleNode` as reachable from stateless operations: a
`StatelessNode`, a new-style `LeafNode`, a `HashedNode` (commitment
bytes plus optional cached point) or an `Empty` node.  The new-style
stateful `InternalNode` lives in a file not under src/ and is not
representable; the operations below treat any non-stateless child
through the same default/error paths the Go dispatch uses. -/
inductive SN where
  | node (d : SNCore SN)
  | leafNd (lf : LeafData)
  | hashedNd (commitment : Bytes) (cachedPoint : Option Point)
  | emptyNd

/-- `NewStateless` (stateless.go lines 72-79): allocated children and
unresolved maps, zero hash, commitment initialized to `Generator()`. -/
def newStateless : SN :=
  .node { children := some [], unresolved := some [], values := none,
          stem := [], depth := 0, count := 0, hash := some 0, cow := none,
          commitment := PointGenerator, c1 := none, c2 := none }

/-- `NewStatelessWithCommitment` (stateless.go lines 81-91). -/
def newStatelessWithCommitment (p : Point) : SN :=
  .node { children := some [], unresolved := none, values := none,
          stem := [], depth := 0, count := 0, hash := some (toFr p), cow := none,
          commitment := p, c1 := none, c2 := none }

/-- `child.Commitment()` for each node variant: the stateless field, the
leaf's (possibly nil) cached commitment, the hashed node's cached or
deserialized point, and the identity for `Empty` (the accessors for the
non-stateless variants are modelled from the spec; `none` models a nil
pointer). -/
def snCommitment : SN → Option Point
  | .node d => some d.commitment
  | .leafNd lf => lf.commitment
  | .hashedNd b c => some (c.getD (pointFromBytes b))
  | .emptyNd => some PointIdentity

/-- Lookup of `n.children[i]` flattening stored-nil entries to nil,
exactly as Go map reads do. -/
def childLookup (m : Option (List (Nat × Option SN))) (i : Nat) : Option SN :=
  match m with
  | none => none
  | some l => (alookup l i).join

/-- `StatelessNode.cowChild` (stateless.go lines 214-227): no-op on leaf
mode (nil children); allocates `cow` if needed; on first touch of slot
`i` stores a copy of the child's current commitment.  A missing child or
a nil leaf commitment would be a nil dereference in Go (`panicked`). -/
def cowChild (d : SNCore SN) (index : Nat) : SNCore SN × Option GoErr :=
  match d.children with
  | none => (d, none)
  | some cs =>
    let cow := d.cow.getD []
    let r : Option (List (Nat × Point)) × Option GoErr :=
      match alookup cow index with
      | some _ => (some cow, none)
      | none =>
        match (alookup cs index).join with
        | none => (some cow, some .panicked)
        | some child =>
          match snCommitment child with
          | none => (some cow, some .panicked)
          | some p => (some (aset cow index p), none)
    ({ d with cow := r.1 }, r.2)

/-- The single-slot sub-commitment delta (`StatelessNode.updateCn`,
stateless.go lines 143-165, and spec §4.3 for the identical `LeafNode`
algebra): `Cn += (new_lo − old_lo)·SRS[2·(i mod 128)] + (new_hi −
old_hi)·SRS[2·(i mod 128)+1]`. -/
def updateCnVal (index : Nat) (oldBytes newBytes : Bytes) (c : Point) : Point :=
  let o := leafToComms oldBytes
  let nw := leafToComms newBytes
  c + (nw.1 - o.1) * SRS (2 * (index % 128)) + (nw.2 - o.2) * SRS (2 * (index % 128) + 1)

/-- Intermediate state of an `updateMultipleLeaves` sweep: the value
container, the fetched sub-commitments with their pre-update scalar
images (`getOldCn`), and a flag recording a nil-pointer panic. -/
structure UpdState (σ : Type) where
  vals : σ
  c1s : Option (Point × Fr)
  c2s : Option (Point × Fr)
  failed : Bool

/-- One slot of `StatelessNode.updateMultipleLeaves` (stateless.go lines
185-212): values that are non-empty and differ from the stored bytes
update the appropriate sub-commitment (fetching it on first use via
`getOldCn`, a nil dereference if the sub-commitment pointer is nil) and
are written into the map. -/
def snUpdStep (c1o c2o : Option Point) (st : UpdState (List (Nat × Option Bytes)))
    (i : Nat) (v : Option Bytes) : UpdState (List (Nat × Option Bytes)) :=
  if st.failed then st else
  match v with
  | none => st
  | some vb =>
    if vb = [] then st
    else
      let stored := ((alookup st.vals i).join).getD []
      if vb = stored then st
      else if i < 128 then
        match st.c1s.orElse fun _ => c1o.map fun c => (c, toFr c) with
        | none => { st with failed := true }
        | some (c, oldc) =>
            { st with vals := aset st.vals i (some vb),
                      c1s := some (updateCnVal i stored vb c, oldc) }
      else
        match st.c2s.orElse fun _ => c2o.map fun c => (c, toFr c) with
        | none => { st with failed := true }
        | some (c, oldc) =>
            { st with vals := aset st.vals i (some vb),
                      c2s := some (updateCnVal i stored vb c, oldc) }

/-- `StatelessNode.updateMultipleLeaves` (stateless.go lines 185-212):
sweep all 256 slots updating `C1`/`C2` incrementally, then apply the two
top-level deltas `commitment += (to_fr(Cn_new) − to_fr(Cn_old)) ·
SRS[2+(n−1)]` (`updateC`, lines 131-141).  On a nil sub-commitment the
Go code panics mid-sweep; the partially updated state is returned with
`panicked`. -/
def snUpdateLeaves (d : SNCore SN) (values : List (Option Bytes)) :
    SNCore SN × Option GoErr :=
  match d.values with
  | none => (d, some .panicked)
  | some vals =>
    let st := (List.range 256).foldl
      (fun st i => snUpdStep d.c1 d.c2 st i (values.getD i none))
      { vals := vals, c1s := none, c2s := none, failed := false }
    let d := { d with values := some st.vals,
                      c1 := match st.c1s with | some (c, _) => some c | none => d.c1,
                      c2 := match st.c2s with | some (c, _) => some c | none => d.c2 }
    if st.failed then (d, some .panicked)
    else
      let comm := match st.c1s with
        | some (c, oldc) => d.commitment + (toFr c - oldc) * SRS 2
        | none => d.commitment
      let comm := match st.c2s with
        | some (c, oldc) => comm + (toFr c - oldc) * SRS 3
        | none => comm
      ({ d with commitment := comm }, none)

/-- One slot of the `LeafNode` variant of `updateMultipleLeaves`.
Modelled from the spec §4.3 (the `LeafNode` type is not under src/);
identical algebra over the 256-entry value slice. -/
def leafUpdStep (c1o c2o : Option Point) (st : UpdState (List (Option Bytes)))
    (i : Nat) (v : Option Bytes) : UpdState (List (Option Bytes)) :=
  if st.failed then st else
  match v with
  | none => st
  | some vb =>
    if vb = [] then st
    else
      let stored := (st.vals.getD i none).getD []
      if vb = stored then st
      else if i < 128 then
        match st.c1s.orElse fun _ => c1o.map fun c => (c, toFr c) with
        | none => { st with failed := true }
        | some (c, oldc) =>
            { st with vals := st.vals.set i (some vb),
                      c1s := some (updateCnVal i stored vb c, oldc) }
      else
        match st.c2s.orElse fun _ => c2o.map fun c => (c, toFr c) with
        | none => { st with failed := true }
        | some (c, oldc) =>
            { st with vals := st.vals.set i (some vb),
                      c2s := some (updateCnVal i stored vb c, oldc) }

/-- `LeafNode.updateMultipleLeaves`.  Modelled from the spec §4.3: update
every changed non-empty slot's sub-commitment, then the top commitment
slots 2 (`C1`) and 3 (`C2`); sub-commitment deltas complete before any
top-level delta. -/
def leafUpdateML (lf : LeafData) (values : List (Option Bytes)) :
    LeafData × Option GoErr :=
  let st := (List.range 256).foldl
    (fun st i => leafUpdStep lf.c1 lf.c2 st i (values.getD i none))
    { vals := lf.values, c1s := none, c2s := none, failed := false }
  let lf := { lf with values := st.vals,
                      c1 := match st.c1s with | some (c, _) => some c | none => lf.c1,
                      c2 := match st.c2s with | some (c, _) => some c | none => lf.c2 }
  if st.failed then (lf, some .panicked)
  else
    match lf.commitment with
    | none =>
      if st.c1s.isSome || st.c2s.isSome then (lf, some .panicked) else (lf, none)
    | some comm =>
      let comm := match st.c1s with
        | some (c, oldc) => comm + (toFr c - oldc) * SRS 2
        | none => comm
      let comm := match st.c2s with
        | some (c, oldc) => comm + (toFr c - oldc) * SRS 3
        | none => comm
      ({ lf with commitment := some comm }, none)

/-- `LeafNode.Get`.  Modelled from the spec §4.3: `None` when the stem
differs from `key[0..31]`, otherwise `values[key[31]]`. -/
def leafGet (lf : LeafData) (k : Bytes) : Option Bytes :=
  if k.take 31 = lf.stem.take 31 then lf.values.getD (k.getD 31 0) none else none

/-- `NewLeafNode`.  Modelled from the spec §4.3: stores the stem and the
256-entry value slice; commitments are computed by `Commit`. -/
def newLeafNode (stem : Bytes) (values : List (Option Bytes)) : LeafData :=
  { stem := stem, values := values, c1 := none, c2 := none,
    commitment := none, depth := 0 }

/-- `LeafNode.Commit`.  Modelled from the spec §3 ("Leaf commitment
formula"): `C1 = Σ_{i<128} (lo_i·SRS[2i] + hi_i·SRS[2i+1])`, `C2` the
same over slots 128..255, and the top commitment places the extension
marker `1`, the stem scalar, `to_fr(C1)` and `to_fr(C2)` at polynomial
slots 0..3. -/
def leafCommit (lf : LeafData) : LeafData :=
  let half := fun (base : Nat) =>
    (List.range 128).foldl
      (fun acc i =>
        let p := leafToComms ((lf.values.getD (base + i) none).getD [])
        acc + p.1 * SRS (2 * i) + p.2 * SRS (2 * i + 1))
      PointIdentity
  let c1 := half 0
  let c2 := half 128
  let comm := 1 * SRS 0 + stemToFr lf.stem * SRS 1 + toFr c1 * SRS 2 + toFr c2 * SRS 3
  { lf with c1 := some c1, c2 := some c2, commitment := some comm }

/-- `StatelessNode.newLeafChildFromMultipleValues` (stateless.go lines
315-324): expects exactly 256 values (else panic), builds a new leaf at
`depth+1` and commits it. -/
def newLeafChild (depth : Nat) (stem : Bytes) (values : List (Option Bytes)) :
    Option LeafData :=
  if values.length ≠ 256 then none
  else some (leafCommit { newLeafNode stem values with depth := depth + 1 })

/-- Serialization type tags (spec §6; the constants live in a repo file
not under src/). -/
def internalRLPType : Nat := 1

def leafRLPType : Nat := 2

/-- Bit `index` of a bitlist (src `setBit`, tree.go lines 753-757). -/
def bitSet (bl : Bytes) (index : Nat) : Bool :=
  (bl.getD (index / 8) 0) / 2 ^ (index % 8) % 2 = 1

/-- The caller-supplied resolver `NodeResolverFn`. -/
abbrev Resolver := Bytes → Except GoErr Bytes

/-- `ParseStatelessNode`.  Modelled from the spec §6 (the function is in
a repo file not under src/; the framing is the exact inverse of
`StatelessNode.Serialize`, stateless.go lines 649-690): a leaf frame is
the tag, the 31-byte stem, a 32-byte bitlist and the present values in
ascending slot order; an internal frame is the tag, a 32-byte bitlist
and the present child commitments in ascending slot order, which become
`unresolved` entries.  The node's own commitment comes from the `comm`
bytes the caller resolved. -/
def parseStatelessNode (serialized : Bytes) (depth : Nat) (comm : Bytes) :
    Except GoErr SN :=
  match serialized with
  | [] => .error .parseFailed
  | tag :: rest =>
    if tag = leafRLPType then
      if rest.length < 63 then .error .parseFailed
      else
        let stem := rest.take 31
        let bl := (rest.drop 31).take 32
        let payload := rest.drop 63
        let fin := (List.range 256).foldl
          (fun (acc : List (Nat × Option Bytes) × Bytes) i =>
            if bitSet bl i then (acc.1 ++ [(i, some (acc.2.take 32))], acc.2.drop 32)
            else acc)
          ([], payload)
        .ok (.node { children := none, unresolved := none, values := some fin.1,
                     stem := stem, depth := depth, count := 0, hash := none,
                     cow := none, commitment := pointFromBytes comm,
                     c1 := none, c2 := none })
    else if tag = internalRLPType then
      if rest.length < 32 then .error .parseFailed
      else
        let bl := rest.take 32
        let payload := rest.drop 32
        let fin := (List.range 256).foldl
          (fun (acc : List (Nat × Bytes) × Bytes) i =>
            if bitSet bl i then (acc.1 ++ [(i, acc.2.take 32)], acc.2.drop 32)
            else acc)
          ([], payload)
        .ok (.node { children := some [], unresolved := some fin.1, values := none,
                     stem := [], depth := depth, count := 0, hash := none,
                     cow := none, commitment := pointFromBytes comm,
                     c1 := none, c2 := none })
    else .error .parseFailed

/-- `StatelessNode.Get` (stateless.go lines 422-453) together with the
child dispatch.  Leaf mode compares the stem with `k[:31]` and returns
the slot (nil and absent both read as `None`, without error); internal
mode descends, resolving an unresolved child on demand — installing the
parsed child and deleting the `unresolved` entry — and an absent child
reads as `None`.  Child variants: leaf as in `LeafNode.Get`; a hashed
child cannot be read from (spec §3); `Empty` reads as `None`.  Fuel
bounds the resolver-driven descent. -/
def snGet : Nat → SN → Bytes → Resolver → SN × Except GoErr (Option Bytes)
  | 0, s, _, _ => (s, .error .outOfFuel)
  | _ + 1, .leafNd lf, k, _ => (.leafNd lf, .ok (leafGet lf k))
  | _ + 1, .hashedNd b c, _, _ => (.hashedNd b c, .error .readInvalidChild)
  | _ + 1, .emptyNd, _, _ => (.emptyNd, .ok none)
  | fuel + 1, .node d, k, getter =>
    match d.values with
    | some vals =>
      if d.stem = k.take 31 then (.node d, .ok ((alookup vals (k.getD 31 0)).join))
      else (.node d, .ok none)
    | none =>
      let nChild := offset2key k d.depth
      match childLookup d.children nChild with
      | some child =>
        let r := snGet fuel child k getter
        (.node { d with children := some (aset (d.children.getD []) nChild (some r.1)) }, r.2)
      | none =>
        match alookup (d.unresolved.getD []) nChild with
        | none => (.node d, .ok none)
        | some ser =>
          match getter ser with
          | .error _ => (.node d, .error .resolverFailed)
          | .ok serialized =>
            match parseStatelessNode serialized (d.depth + 1) ser with
            | .error e => (.node d, .error e)
            | .ok child =>
              let d := { d with
                children := some (aset (d.children.getD []) nChild (some child)),
                unresolved := some (adel (d.unresolved.getD []) nChild) }
              let r := snGet fuel child k getter
              (.node { d with children := some (aset (d.children.getD []) nChild (some r.1)) }, r.2)

/-- The child dispatch of `StatelessNode.InsertAtStem` (the `switch` at
stateless.go lines 276-310), after resolution and CoW snapshot.  A
stateless child recurses (`recur` is the recursive call with the
remaining fuel); a leaf with the same stem is updated in place; a leaf
with a different stem is re-rooted under a fresh intermediate stateless
node at its own depth — whose CoW slot for the moved child starts at
the value `Generator()` — and the insert recurses into the new branch;
anything else is `errNotSupportedInStateless`. -/
def insertDispatch (recur : SN → SN × Option GoErr) (d : SNCore SN)
    (nChild : Nat) (stem : Bytes) (values : List (Option Bytes)) :
    SN × Option GoErr :=
  match childLookup d.children nChild with
  | some (.node cd) =>
    let r := recur (.node cd)
    (.node { d with children := some (aset (d.children.getD []) nChild (some r.1)) },
     r.2)
  | some (.leafNd lf) =>
    if equalPaths lf.stem stem then
      let r := leafUpdateML lf values
      (.node { d with children := some (aset (d.children.getD []) nChild (some (.leafNd r.1))) },
       r.2)
    else
      let nextExisting := offset2key lf.stem lf.depth
      let newBranch : SN := .node
        { children := some [(nextExisting, some (.leafNd { lf with depth := lf.depth + 1 }))],
          unresolved := none, values := none, stem := [],
          depth := lf.depth, count := 0, hash := none,
          cow := some [(nextExisting, PointGenerator)],
          commitment := PointGenerator, c1 := none, c2 := none }
      let r := recur newBranch
      (.node { d with children := some (aset (d.children.getD []) nChild (some r.1)),
                      count := d.count + 1 },
       r.2)
  | _ => (.node d, some .notSupportedInStateless)

/-- The CoW snapshot step of `InsertAtStem` (stateless.go line 273)
followed by the dispatch; a snapshot panic aborts. -/
def insertAfterResolve (recur : SN → SN × Option GoErr) (d : SNCore SN)
    (nChild : Nat) (stem : Bytes) (values : List (Option Bytes)) :
    SN × Option GoErr :=
  let r := cowChild d nChild
  match r.2 with
  | some err => (.node r.1, some err)
  | none => insertDispatch recur r.1 nChild stem values

/-- The hash-resolution step of `InsertAtStem` (stateless.go lines
258-271): a hashed child is resolved via the caller's resolver and
replaced by the parsed node — the `unresolved` entry, if any, is not
removed — then the CoW snapshot and dispatch run. -/
def insertResolveStep (recur : SN → SN × Option GoErr) (resolver : Resolver)
    (d : SNCore SN) (nChild : Nat) (stem : Bytes)
    (values : List (Option Bytes)) : SN × Option GoErr :=
  match childLookup d.children nChild with
  | some (.hashedNd comm _) =>
    match resolver comm with
    | .error _ => (.node d, some .resolverFailed)
    | .ok serialized =>
      match parseStatelessNode serialized (d.depth + 1) comm with
      | .error e => (.node d, some e)
      | .ok nd =>
        insertAfterResolve recur
          { d with children := some (aset (d.children.getD []) nChild (some nd)) }
          nChild stem values
  | _ => insertAfterResolve recur d nChild stem values

/-- `StatelessNode.InsertAtStem` (stateless.go lines 229-313).  All four
child situations of the source are covered: an absent child with no
unresolved entry becomes a fresh committed leaf (with the `Empty{}` CoW
hack recording the identity as the pre-state); an unresolved entry is
installed as a hashed child and falls through to resolution; then the
child is CoW-snapshotted and dispatched (`insertResolveStep`,
`insertAfterResolve`, `insertDispatch` above).  Mutations performed
before an error persist, as they do through Go pointers. -/
def insertAtStem : Nat → SN → Bytes → List (Option Bytes) → Resolver →
    SN × Option GoErr
  | 0, s, _, _, _ => (s, some .outOfFuel)
  | fuel + 1, .node d, stem, values, resolver =>
    let nChild := offset2key stem d.depth
    match d.values with
    | some _ =>
      let r := snUpdateLeaves d values
      (.node r.1, r.2)
    | none =>
      let cs := d.children.getD []
      match (alookup cs nChild).join with
      | some _ =>
        insertResolveStep (fun c => insertAtStem fuel c stem values resolver)
          resolver { d with children := some cs } nChild stem values
      | none =>
        match (alookup (d.unresolved.getD []) nChild).getD [] with
        | [] =>
          -- no unresolved entry: install Empty (so CoW records the
          -- identity), snapshot, then create the committed leaf child
          let cs1 := aset cs nChild (some .emptyNd)
          let r := cowChild { d with children := some cs1 } nChild
          match newLeafChild d.depth stem values with
          | none => (.node r.1, some .panicked)
          | some lf =>
            (.node { r.1 with children := some (aset cs1 nChild (some (.leafNd lf))) },
             none)
        | ser =>
          insertResolveStep (fun c => insertAtStem fuel c stem values resolver)
            resolver
            { d with children := some (aset cs nChild (some (.hashedNd ser none))) }
            nChild stem values
  | _ + 1, s, _, _, _ => (s, some .panicked)

/-- `StatelessNode.Insert` (stateless.go lines 179-183): a 256-entry
value slice holding the single value at `key[31]`, inserted at
`key[:31]`. -/
def snInsert (fuel : Nat) (s : SN) (key value : Bytes) (resolver : Resolver) :
    SN × Option GoErr :=
  insertAtStem fuel s (key.take 31)
    ((List.replicate 256 (none : Option Bytes)).set (key.getD 31 0) (some value))
    resolver

/-- The 32-byte zero value written by `Delete`. -/
def zero32 : Bytes := List.replicate 32 0

/-- `StatelessNode.Delete` (stateless.go lines 417-420): writes 32 zero
bytes via `Insert`. -/
def snDelete (fuel : Nat) (s : SN) (key : Bytes) (resolver : Resolver) :
    SN × Option GoErr :=
  snInsert fuel s key zero32 resolver

/-- `CommitToPoly(poly, empty)` (spec §4.1): `Σ poly[i]·SRS[i]`; the
multi-exponentiation branch (chosen when `256 − empty ≥ 110`) computes
the same sum.  Here the polynomial is the sparse association list built
from the CoW map. -/
def commitToPolySparse (poly : List (Nat × Fr)) : Point :=
  poly.foldl (fun acc e => acc + e.2 * SRS e.1) PointIdentity

/-- `StatelessNode.Commit` (stateless.go lines 459-480) with the child
dispatch.  Leaf mode (`len(values) ≠ 0`) skips everything ("stateless
leaf nodes are currently broken") and returns the stored commitment
unmodified.  Otherwise, a non-empty CoW map is folded into a sparse
delta polynomial `poly[i] = to_fr(child[i].Commit()) − to_fr(cow[i])`,
the committed delta is added to the node's commitment and `cow` is
reset to nil.  Child variants: leaf commits via the spec §3 formula,
hashed/empty yield their stored/identity commitment.  A CoW entry whose
child is missing would be a nil dereference in Go and cannot arise; it
contributes the identity here. -/
def snCommit : Nat → SN → SN × Point
  | 0, s => (s, PointIdentity)
  | _ + 1, .leafNd lf =>
    let lf := leafCommit lf
    (.leafNd lf, lf.commitment.getD PointIdentity)
  | _ + 1, .hashedNd b c => (.hashedNd b c, (snCommitment (.hashedNd b c)).getD PointIdentity)
  | _ + 1, .emptyNd => (.emptyNd, PointIdentity)
  | fuel + 1, .node d =>
    match d.values with
    | some (_ :: _) => (.node d, d.commitment)
    | _ =>
      match d.cow with
      | some (c0 :: cowrest) =>
        let fin := (c0 :: cowrest).foldl
          (fun (acc : List (Nat × Option SN) × List (Nat × Fr)) e =>
            match (alookup acc.1 e.1).join with
            | none => (acc.1, aset acc.2 e.1 (0 - toFr e.2))
            | some child =>
              let r := snCommit fuel child
              (aset acc.1 e.1 (some r.1), aset acc.2 e.1 (toFr r.2 - toFr e.2)))
          (d.children.getD [], [])
        let comm := d.commitment + commitToPolySparse fin.2
        (.node { d with children := some fin.1, cow := none, commitment := comm }, comm)
      | _ => (.node d, d.commitment)

/-- `StatelessNode.insertValue` (stateless.go lines 384-408): on a leaf
(no children) a stem mismatch is `errInsertIntoOtherStem` and otherwise
the slot is written (a nil values map would be a Go panic); on an
internal node a nil child accepts only nil values (else panic), and the
recursive call's result is discarded by the source — only a Go panic
(or, in this model, fuel exhaustion) escapes, any returned error is
dropped.  A non-stateless child fails the type assertion (panic). -/
def insertValueS : Nat → SN → Bytes → Bytes → SN × Option GoErr
  | 0, s, _, _ => (s, some .outOfFuel)
  | fuel + 1, .node d, key, value =>
    if (d.children.getD []).length = 0 then
      if ¬(key.take 31 = d.stem) then (.node d, some .insertIntoOtherStem)
      else
        match d.values with
        | none => (.node d, some .panicked)
        | some vals =>
          (.node { d with values := some (aset vals (key.getD 31 0) (some value)) }, none)
    else
      let nChild := offset2key key d.depth
      match childLookup d.children nChild with
      | none =>
        if value.length ≠ 0 then (.node d, some .panicked) else (.node d, none)
      | some (.node cd) =>
        let r := insertValueS fuel (.node cd) key value
        let kept := match r.2 with
          | some .panicked => some GoErr.panicked
          | some .outOfFuel => some GoErr.outOfFuel
          | _ => none
        (.node { d with children := some (aset (d.children.getD []) nChild (some r.1)) }, kept)
      | some _ => (.node d, some .panicked)
  | _ + 1, s, _, _ => (s, some .panicked)

/-- The proof-element accumulator (spec §4.6): parallel sequences of
opened commitments, evaluation points and claimed evaluations, plus the
path-indexed commitment map. -/
structure ProofElements where
  Cis : List Point
  Zis : List Nat
  Yis : List Fr
  ByPath : List (Bytes × Point)

def emptyPE : ProofElements := { Cis := [], Zis := [], Yis := [], ByPath := [] }

/-- `ProofElements.Merge`.  Modelled from the repo's proof helper
(absent from src/): element-wise append of the three sequences and union
of the path maps. -/
def peMerge (a b : ProofElements) : ProofElements :=
  { Cis := a.Cis ++ b.Cis, Zis := a.Zis ++ b.Zis, Yis := a.Yis ++ b.Yis,
    ByPath := b.ByPath.foldl
      (fun acc kv => match alookup acc kv.1 with
        | some _ => acc
        | none => acc ++ [kv])
      a.ByPath }

/-- Insertion sort, the `sort.Slice(indices, ...)` ascending order. -/
def insertAsc (x : Nat) : List Nat → List Nat
  | [] => [x]
  | y :: ys => if x ≤ y then x :: y :: ys else y :: insertAsc x ys

def sortAsc (l : List Nat) : List Nat := l.foldr insertAsc []

/-- The `hasC1`/`hasC2` scan of `GetProofItems` (stateless.go lines
568-575), iterating the `values` map in (nondeterministic) map order —
modelled by the association-list order — and breaking out of the loop
as soon as `hasC2` becomes true. -/
def hasC1C2 : List (Nat × Option Bytes) → Bool → Bool → Bool × Bool
  | [], h1, h2 => (h1, h2)
  | (suffix, _) :: rest, h1, h2 =>
    let h1 := h1 || decide (suffix < 128)
    let h2 := h2 || decide (128 ≤ suffix)
    if h2 then (h1, h2) else hasC1C2 rest h1 h2

/-- The per-level openings of an internal stateless node (first loop of
`GetProofItems`, stateless.go lines 518-536): for each present child
index in ascending order append `(C, idx, to_fr(child.C))` — zero for a
nil child — and register the child path. -/
def peLevel (comm : Point) (cs : List (Nat × Option SN)) (path : Bytes) :
    List Nat → ProofElements → ProofElements × Option GoErr
  | [], pe => (pe, none)
  | idx :: rest, pe =>
    let yi : Except GoErr Fr :=
      match (alookup cs idx).join with
      | none => .ok 0
      | some child =>
        match snCommitment child with
        | none => .error .panicked
        | some p => .ok (toFr p)
    match yi with
    | .error e => (pe, some e)
    | .ok y =>
      peLevel comm cs path rest
        { pe with Cis := pe.Cis ++ [comm], Zis := pe.Zis ++ [idx],
                  Yis := pe.Yis ++ [y],
                  ByPath := aset pe.ByPath (path ++ [idx]) comm }

/-- The per-suffix openings of a leaf-mode stateless node (suffix loop of
`GetProofItems`, stateless.go lines 594-644): ascending suffixes; a
missing sub-commitment is skipped (absent subtree); a stored-nil slot
emits two zero evaluations; a present slot emits its `leafToComms`
halves.  Evaluation points are byte arithmetic (`2·suffix` wraps at
256). -/
def peSuffixes (c1 c2 : Option Point) (vals : List (Nat × Option Bytes))
    (path : Bytes) : List Nat → ProofElements → ProofElements
  | [], pe => pe
  | suffix :: rest, pe =>
    let scomm := if suffix < 128 then c1 else c2
    match scomm with
    | none => peSuffixes c1 c2 vals path rest pe
    | some sc =>
      let suffSlot := 2 + suffix / 128
      let slotPath := path ++ [suffSlot]
      let z1 := 2 * suffix % 256
      let z2 := 2 * suffix % 256 + 1
      match (alookup vals suffix).join with
      | none =>
        peSuffixes c1 c2 vals path rest
          { pe with Cis := pe.Cis ++ [sc, sc], Zis := pe.Zis ++ [z1, z2],
                    Yis := pe.Yis ++ [0, 0], ByPath := aset pe.ByPath slotPath sc }
      | some slot =>
        let lv := leafToComms slot
        peSuffixes c1 c2 vals path rest
          { pe with Cis := pe.Cis ++ [sc, sc], Zis := pe.Zis ++ [z1, z2],
                    Yis := pe.Yis ++ [lv.1, lv.2], ByPath := aset pe.ByPath slotPath sc }

/-- `StatelessNode.GetProofItems` (stateless.go lines 496-647).  An
internal node sorts the present child indices, emits the level openings,
then recurses in the same order into stateless children (second loop,
lines 542-556: nil and hashed children are skipped; any other child type
panics, which aborts the run).  A leaf-mode node emits the extension
openings `(C,0,1)`, `(C,1,stem)`, then `(C,2,C1)` and `(C,3,C2)` guarded
by the `hasC1`/`hasC2` scan, then the per-suffix openings in ascending
suffix order. -/
def getProofItems : Nat → SN → Bytes → ProofElements × Option GoErr
  | 0, _, _ => (emptyPE, some .outOfFuel)
  | fuel + 1, .node d, path =>
    match d.values with
    | some (v0 :: vrest) =>
      let vals := v0 :: vrest
      let pe0 : ProofElements :=
        { Cis := [d.commitment, d.commitment], Zis := [0, 1],
          Yis := [1, stemToFr d.stem], ByPath := [] }
      let hc := hasC1C2 vals false false
      let addCn := fun (flag : Bool) (cn : Option Point) (z : Nat)
          (pe : ProofElements) =>
        if flag then
          match cn with
          | none => (pe, some GoErr.panicked)
          | some c =>
            ({ pe with Cis := pe.Cis ++ [d.commitment], Zis := pe.Zis ++ [z],
                       Yis := pe.Yis ++ [toFr c] }, (none : Option GoErr))
        else (pe, none)
      match addCn hc.1 d.c1 2 pe0 with
      | (_, some e) => (emptyPE, some e)
      | (pe1, none) =>
        match addCn hc.2 d.c2 3 pe1 with
        | (_, some e) => (emptyPE, some e)
        | (pe2, none) =>
          let pe3 := { pe2 with ByPath := aset pe2.ByPath path d.commitment }
          (peSuffixes d.c1 d.c2 vals path (sortAsc (vals.map (·.1))) pe3, none)
    | _ =>
      let cs := d.children.getD []
      let indices := sortAsc (cs.map (·.1))
      match peLevel d.commitment cs path indices emptyPE with
      | (_, some e) => (emptyPE, some e)
      | (pe, none) =>
        indices.foldl
          (fun acc idx =>
            match acc with
            | (_, some _) => acc
            | (pe, none) =>
              match (alookup cs idx).join with
              | some (.node cd) =>
                match getProofItems fuel (.node cd) (path ++ [idx]) with
                | (_, some e) => (pe, some e)
                | (cpe, none) => (peMerge pe cpe, none)
              | some (.hashedNd _ _) => (pe, none)
              | none => (pe, none)
              | some _ => (pe, some .panicked))
          (pe, none)
  | _ + 1, _, _ => (emptyPE, some .panicked)

/-- Decidable equality on results, for evaluating the model at concrete
inputs. -/
instance : DecidableEq (Except GoErr Bytes) := fun a b =>
  match a, b with
  | .ok x, .ok y => decidable_of_iff (x = y) (by simp)
  | .ok _, .error _ => isFalse (by simp)
  | .error _, .ok _ => isFalse (by simp)
  | .error x, .error y => decidable_of_iff (x = y) (by simp)

instance : DecidableEq (Except GoErr (Option Bytes)) := fun a b =>
  match a, b with
  | .ok x, .ok y => decidable_of_iff (x = y) (by simp)
  | .ok _, .error _ => isFalse (by simp)
  | .error _, .ok _ => isFalse (by simp)
  | .error x, .error y => decidable_of_iff (x = y) (by simp)

/-- Root-level `unresolved` map of a stateless node (empty for other
variants), for stating the slot-exclusivity claims. -/
def snUnresolvedL : SN → List (Nat × Bytes)
  | .node d => d.unresolved.getD []
  | _ => []

/-- Root-level child lookup of a stateless node. -/
def snChildL : SN → Nat → Option SN
  | .node d, i => childLookup d.children i
  | _, _ => none

/-- Root-level `values` map of a stateless node. -/
def snValuesL : SN → List (Nat × Option Bytes)
  | .node d => d.values.getD []
  | _ => []

/-! Concrete states used to evaluate the model (counterexamples and
witnesses). -/

/-- A leaf-mode stateless node whose `values` map iterates the suffix
`130` before the suffix `5`. -/
def exLeaf35 : SN := .node
  { children := none, unresolved := none,
    values := some [(130, some (List.replicate 32 9)), (5, some (List.replicate 32 8))],
    stem := List.replicate 31 3, depth := 1, count := 0, hash := none, cow := none,
    commitment := 33, c1 := some 11, c2 := some 22 }

/-- A leaf-mode stateless node with suffixes `10` and `200`, iterating
`10` first. -/
def exLeafAB : SN := .node
  { children := none, unresolved := none,
    values := some [(10, some (List.replicate 32 1)), (200, some (List.replicate 32 2))],
    stem := List.replicate 31 3, depth := 1, count := 0, hash := none, cow := none,
    commitment := 33, c1 := some 11, c2 := some 22 }

/-- The same map contents as `exLeafAB`, iterating `200` first. -/
def exLeafBA : SN := .node
  { children := none, unresolved := none,
    values := some [(200, some (List.replicate 32 2)), (10, some (List.replicate 32 1))],
    stem := List.replicate 31 3, depth := 1, count := 0, hash := none, cow := none,
    commitment := 33, c1 := some 11, c2 := some 22 }

/-- Commitment bytes of an unresolved child used in resolution runs. -/
def exUBytes : Bytes := [1, 2, 3]

/-- A serialized empty leaf frame (tag, 31-byte stem, zero bitlist). -/
def exSerLeaf : Bytes := leafRLPType :: (List.replicate 31 4 ++ List.replicate 32 0)

/-- The node `ParseStatelessNode` yields for `exSerLeaf` at depth 1. -/
def exParsedLeaf : SN := .node
  { children := none, unresolved := none, values := some [],
    stem := List.replicate 31 4, depth := 1, count := 0, hash := none,
    cow := none, commitment := pointFromBytes exUBytes, c1 := none, c2 := none }

/-- A resolver backed by the single entry `exUBytes ↦ exSerLeaf`. -/
def exResolver : Resolver := fun b =>
  if b = exUBytes then .ok exSerLeaf else .error .resolverFailed

/-- A resolver that always fails (never consulted in the runs using it). -/
def noResolver : Resolver := fun _ => .error .resolverFailed

/-- The fields of an internal stateless node carrying only the
unresolved entry `7 ↦ exUBytes`. -/
def exUNCore : SNCore SN :=
  { children := some [], unresolved := some [(7, exUBytes)], values := none,
    stem := [], depth := 0, count := 0, hash := some 0, cow := none,
    commitment := 9, c1 := none, c2 := none }

/-- An internal stateless node carrying only the unresolved entry
`7 ↦ exUBytes`. -/
def exUnresolvedNode : SN := .node exUNCore

/-- A stem starting with byte 7 (descending into slot 7 of the root). -/
def exStem7 : Bytes := 7 :: List.replicate 30 5

/-- A leaf-mode stateless node holding the stem `7777…` (31 times 7),
as reconstructed from a proof. -/
def exLeafOther : SN := .node
  { children := none, unresolved := none, values := some [],
    stem := List.replicate 31 7, depth := 1, count := 0, hash := none, cow := none,
    commitment := 3, c1 := none, c2 := none }

/-- An internal stateless node whose slot 5 holds `exLeafOther`. -/
def exRoot8 : SN := .node
  { children := some [(5, some exLeafOther)], unresolved := none, values := none,
    stem := [], depth := 0, count := 0, hash := none, cow := none,
    commitment := 4, c1 := none, c2 := none }

/-- An internal stateless node with a child at slot 9 only. -/
def exRoot8b : SN := .node
  { children := some [(9, some exLeafOther)], unresolved := none, values := none,
    stem := [], depth := 0, count := 0, hash := none, cow := none,
    commitment := 4, c1 := none, c2 := none }

/-- A key descending into slot 5 whose stem is not `exLeafOther`'s. -/
def exKey8 : Bytes := 5 :: List.replicate 31 1

/-- A leaf-mode stateless node with a single populated slot. -/
def exLeafMode : SNCore SN :=
  { children := none, unresolved := none,
    values := some [(0, some (List.replicate 32 1))],
    stem := List.replicate 31 2, depth := 1, count := 0, hash := none, cow := none,
    commitment := 44, c1 := some 5, c2 := some 6 }

/-- An internal stateless node with an `Empty` child at slot 0 and no
CoW snapshots yet. -/
def exCowNode : SNCore SN :=
  { children := some [(0, some SN.emptyNd)], unresolved := none, values := none,
    stem := [], depth := 0, count := 0, hash := none, cow := none,
    commitment := 4, c1 := none, c2 := none }

/-- The subtree built when an insert displaces a leaf with a different
stem (stateless.go lines 288-305): a fresh stateless node at the moved
leaf's depth holding the pushed-down leaf, with the moved child's CoW
slot pre-set to `Generator()`. -/
def rerootBranch (lf : LeafData) : SN := .node
  { children := some [(offset2key lf.stem lf.depth,
      some (.leafNd { lf with depth := lf.depth + 1 }))],
    unresolved := none, values := none, stem := [],
    depth := lf.depth, count := 0, hash := none,
    cow := some [(offset2key lf.stem lf.depth, PointGenerator)],
    commitment := PointGenerator, c1 := none, c2 := none }

/-- Well-formed stateless trees: the closure of `NewStateless` under the
insert API.  A node at depth `dep` below path prefix `pre` is either a
committed-or-not `LeafNode` with a 31-byte stem extending `pre` and 256
value slots, or an internal-mode stateless node at depth ≤ 30 with no
unresolved entries, duplicate-free child keys, and well-formed children
one level down. -/
inductive WfS : SN → Nat → Bytes → Prop where
  | leaf : ∀ (lf : LeafData) (dep : Nat) (pre : Bytes),
      lf.stem.length = 31 → lf.values.length = 256 → lf.depth = dep →
      lf.stem.take dep = pre → WfS (.leafNd lf) dep pre
  | node : ∀ (d : SNCore SN) (cs : List (Nat × Option SN)) (dep : Nat) (pre : Bytes),
      d.values = none → d.children = some cs →
      (d.unresolved = none ∨ d.unresolved = some []) →
      d.depth = dep → dep ≤ 30 →
      (cs.map Prod.fst).Nodup →
      (∀ p ∈ cs, p.2.isSome = true) →
      (∀ (i : Nat) (c : SN), (i, some c) ∈ cs → WfS c (dep + 1) (pre ++ [i])) →
      WfS (.node d) dep pre

end SL

namespace Old

/-- 32-byte example keys sharing bytes 0–2 and differing at byte 3. -/
def exK1 : Bytes := 0 :: 1 :: 2 :: 3 :: List.replicate 28 0

def exK2 : Bytes := 0 :: 1 :: 2 :: 4 :: List.replicate 28 0

def exV1 : Bytes := List.replicate 32 7

def exV2 : Bytes := List.replicate 32 8

end Old

/-! ## Theorems -/

namespace Old

open ONode

/-- Step lemma: inserting into an empty child slot installs the leaf
(tree.go lines 204-205). -/
theorem insertO_step_empty (f : Nat) (children : Nat → ONode) (depth : Nat)
    (cm : Option Point) (key value : Bytes)
    (h : children (offset2Key key depth) = emptyNode) :
    insertO (f + 1) (internalOld children depth cm) key value =
      (internalOld (Function.update children (offset2Key key depth)
        (leafOld key value)) depth none, none) := by
  simp only [insertO, h]

/-- Step lemma: splitting a leaf whose next key word differs installs
one branching internal node holding both leaves (tree.go lines
226-229). -/
theorem insertO_step_split_final (f : Nat) (children : Nat → ONode) (depth : Nat)
    (cm : Option Point) (key value ck cv : Bytes)
    (h : children (offset2Key key depth) = leafOld ck cv)
    (hne : ck ≠ key)
    (hw : offset2Key key (depth + 8) ≠ offset2Key ck (depth + 8)) :
    insertO (f + 1) (internalOld children depth cm) key value =
      (internalOld (Function.update children (offset2Key key depth)
        (internalOld
          (Function.update (Function.update allEmpty (offset2Key ck (depth + 8))
            (leafOld ck cv)) (offset2Key key (depth + 8)) (leafOld key value))
          (depth + 8) none)) depth none, none) := by
  simp [insertO, h, hne, hw]

/-- Step lemma: splitting a leaf whose next key word agrees re-roots the
old leaf one level down and recurses (tree.go lines 230-232). -/
theorem insertO_step_split_recurse (f : Nat) (children : Nat → ONode) (depth : Nat)
    (cm : Option Point) (key value ck cv : Bytes)
    (h : children (offset2Key key depth) = leafOld ck cv)
    (hne : ck ≠ key)
    (hw : offset2Key key (depth + 8) = offset2Key ck (depth + 8)) :
    insertO (f + 1) (internalOld children depth cm) key value =
      ((internalOld (Function.update children (offset2Key key depth)
        (insertO f (internalOld (Function.update allEmpty
          (offset2Key ck (depth + 8)) (leafOld ck cv)) (depth + 8) none) key value).1)
        depth none,
        (insertO f (internalOld (Function.update allEmpty
          (offset2Key ck (depth + 8)) (leafOld ck cv)) (depth + 8) none) key value).2)) := by
  simp [insertO, h, hne, hw]

/-- Step lemma: `Get` descends through an internal child. -/
theorem getO_step (children : Nat → ONode) (depth : Nat) (cm : Option Point)
    (k : Bytes) (c2 : Nat → ONode) (d2 : Nat) (cm2 : Option Point)
    (h : children (offset2Key k depth) = internalOld c2 d2 cm2) :
    getO (internalOld children depth cm) k = getO (internalOld c2 d2 cm2) k := by
  rw [getO, h]
  simp [invalidReadChild]

/-- Step lemma: `Get` at a leaf child holding exactly the queried key. -/
theorem getO_leaf (children : Nat → ONode) (depth : Nat) (cm : Option Point)
    (k cv : Bytes)
    (h : children (offset2Key k depth) = leafOld k cv) :
    getO (internalOld children depth cm) k = .ok cv := by
  rw [getO, h]
  simp [invalidReadChild, getO]

end Old

open Old Old.ONode in
/-- C1: on a fresh tree, inserting two 32-byte keys that share their
first 3 bytes and differ in byte 3 succeeds; afterwards the branch
holding them is the root plus internal nodes for the shared bytes 1 and
2 plus one branching internal node — four internal nodes in all, one
per consumed key word (depths 0, 8, 16, 24 bits) — whose slots at the
two differing bytes hold the two leaves, and `Get` returns the two
values. -/
theorem claim_C1 (f : Nat) (a b c d1 d2 : Nat) (t1 t2 v1 v2 : Bytes)
    (hne : d1 ≠ d2) (hl1 : t1.length = 28) (hl2 : t2.length = 28) :
    (insertO (f + 4) newRoot (a :: b :: c :: d1 :: t1) v1).2 = none ∧
    (insertO (f + 4) (insertO (f + 4) newRoot (a :: b :: c :: d1 :: t1) v1).1
      (a :: b :: c :: d2 :: t2) v2).2 = none ∧
    pathInternalCount
      (insertO (f + 4) (insertO (f + 4) newRoot (a :: b :: c :: d1 :: t1) v1).1
        (a :: b :: c :: d2 :: t2) v2).1 (a :: b :: c :: d1 :: t1) = 4 ∧
    pathInternalCount
      (insertO (f + 4) (insertO (f + 4) newRoot (a :: b :: c :: d1 :: t1) v1).1
        (a :: b :: c :: d2 :: t2) v2).1 (a :: b :: c :: d2 :: t2) = 4 ∧
    (∃ ch : Nat → ONode,
      descendSteps
        (insertO (f + 4) (insertO (f + 4) newRoot (a :: b :: c :: d1 :: t1) v1).1
          (a :: b :: c :: d2 :: t2) v2).1 (a :: b :: c :: d1 :: t1) 3 =
        internalOld ch 24 none ∧
      descendSteps
        (insertO (f + 4) (insertO (f + 4) newRoot (a :: b :: c :: d1 :: t1) v1).1
          (a :: b :: c :: d2 :: t2) v2).1 (a :: b :: c :: d2 :: t2) 3 =
        internalOld ch 24 none ∧
      ch d1 = leafOld (a :: b :: c :: d1 :: t1) v1 ∧
      ch d2 = leafOld (a :: b :: c :: d2 :: t2) v2) ∧
    getO
      (insertO (f + 4) (insertO (f + 4) newRoot (a :: b :: c :: d1 :: t1) v1).1
        (a :: b :: c :: d2 :: t2) v2).1 (a :: b :: c :: d1 :: t1) = .ok v1 ∧
    getO
      (insertO (f + 4) (insertO (f + 4) newRoot (a :: b :: c :: d1 :: t1) v1).1
        (a :: b :: c :: d2 :: t2) v2).1 (a :: b :: c :: d2 :: t2) = .ok v2 := by
  have hk12 : (a :: b :: c :: d1 :: t1 : Bytes) ≠ (a :: b :: c :: d2 :: t2) := by
    simp [hne]
  set k1 : Bytes := a :: b :: c :: d1 :: t1 with hk1def
  set k2 : Bytes := a :: b :: c :: d2 :: t2 with hk2def
  set L1 : ONode := leafOld k1 v1 with hL1
  set L2 : ONode := leafOld k2 v2 with hL2
  have o10 : offset2Key k1 0 = a := rfl
  have o20 : offset2Key k2 0 = a := rfl
  have o11 : offset2Key k1 8 = b := rfl
  have o21 : offset2Key k2 8 = b := rfl
  have o12 : offset2Key k1 16 = c := rfl
  have o22 : offset2Key k2 16 = c := rfl
  have o13 : offset2Key k1 24 = d1 := rfl
  have o23 : offset2Key k2 24 = d2 := rfl
  have s1 : insertO (f + 4) newRoot k1 v1 =
      (internalOld (Function.update allEmpty a L1) 0 none, none) := by
    have := insertO_step_empty (f + 3) allEmpty 0 none k1 v1 rfl
    rw [show f + 4 = (f + 3) + 1 from rfl, newRoot, this, o10]
  have s4 : insertO (f + 2)
      (internalOld (Function.update allEmpty c L1) 16 none) k2 v2 =
      (internalOld (Function.update (Function.update allEmpty c L1) c
        (internalOld (Function.update (Function.update allEmpty d1 L1) d2 L2)
          24 none)) 16 none, none) := by
    have h : (Function.update allEmpty c L1) (offset2Key k2 16) = leafOld k1 v1 := by
      rw [o22, Function.update_same]
    have := insertO_step_split_final (f + 1) (Function.update allEmpty c L1)
      16 none k2 v2 k1 v1 h hk12
      (by rw [show (16:Nat) + 8 = 24 from rfl, o13, o23]; exact fun hx => hne hx.symm)
    rw [show f + 2 = (f + 1) + 1 from rfl, this]
    rw [show (16:Nat) + 8 = 24 from rfl, o13, o22, o23]
  have s3 : insertO (f + 3)
      (internalOld (Function.update allEmpty b L1) 8 none) k2 v2 =
      (internalOld (Function.update (Function.update allEmpty b L1) b
        (internalOld (Function.update (Function.update allEmpty c L1) c
          (internalOld (Function.update (Function.update allEmpty d1 L1) d2 L2)
            24 none)) 16 none)) 8 none, none) := by
    have h : (Function.update allEmpty b L1) (offset2Key k2 8) = leafOld k1 v1 := by
      rw [o21, Function.update_same]
    have := insertO_step_split_recurse (f + 2) (Function.update allEmpty b L1)
      8 none k2 v2 k1 v1 h hk12 (by rw [show (8:Nat) + 8 = 16 from rfl, o12, o22])
    rw [show f + 3 = (f + 2) + 1 from rfl, this]
    rw [show (8:Nat) + 8 = 16 from rfl, o12, o21, s4]
  have s2 : insertO (f + 4)
      (internalOld (Function.update allEmpty a L1) 0 none) k2 v2 =
      (internalOld (Function.update (Function.update allEmpty a L1) a
        (internalOld (Function.update (Function.update allEmpty b L1) b
          (internalOld (Function.update (Function.update allEmpty c L1) c
            (internalOld (Function.update (Function.update allEmpty d1 L1) d2 L2)
              24 none)) 16 none)) 8 none)) 0 none, none) := by
    have h : (Function.update allEmpty a L1) (offset2Key k2 0) = leafOld k1 v1 := by
      rw [o20, Function.update_same]
    have := insertO_step_split_recurse (f + 3) (Function.update allEmpty a L1)
      0 none k2 v2 k1 v1 h hk12 (by rw [show (0:Nat) + 8 = 8 from rfl, o11, o21])
    rw [show f + 4 = (f + 3) + 1 from rfl, this]
    rw [show (0:Nat) + 8 = 8 from rfl, o11, o20, s3]
  rw [s1]
  simp only [s2]
  have hd21 : d2 ≠ d1 := fun hx => hne hx.symm
  refine ⟨trivial, trivial, ?_, ?_, ?_, ?_, ?_⟩
  · show pathInternalCount _ k1 = 4
    rw [pathInternalCount, o10, Function.update_same,
      pathInternalCount, o11, Function.update_same,
      pathInternalCount, o12, Function.update_same,
      pathInternalCount, o13, Function.update_noteq hne, Function.update_same]
    rfl
  · show pathInternalCount _ k2 = 4
    rw [pathInternalCount, o20, Function.update_same,
      pathInternalCount, o21, Function.update_same,
      pathInternalCount, o22, Function.update_same,
      pathInternalCount, o23, Function.update_same]
    rfl
  · refine ⟨Function.update (Function.update allEmpty d1 L1) d2 L2, ?_, ?_, ?_, ?_⟩
    · rw [show (3:Nat) = 2 + 1 from rfl, descendSteps, o10, Function.update_same,
        show (2:Nat) = 1 + 1 from rfl, descendSteps, o11, Function.update_same,
        show (1:Nat) = 0 + 1 from rfl, descendSteps, o12, Function.update_same,
        descendSteps]
    · rw [show (3:Nat) = 2 + 1 from rfl, descendSteps, o20, Function.update_same,
        show (2:Nat) = 1 + 1 from rfl, descendSteps, o21, Function.update_same,
        show (1:Nat) = 0 + 1 from rfl, descendSteps, o22, Function.update_same,
        descendSteps]
    · rw [Function.update_noteq hd21.symm, Function.update_same]
    · rw [Function.update_same]
  · have g3 : getO (internalOld (Function.update (Function.update allEmpty d1 L1) d2 L2)
        24 none) k1 = .ok v1 := by
      apply getO_leaf
      rw [o13, Function.update_noteq hd21.symm, Function.update_same]
    calc getO _ k1 = _ := getO_step _ 0 none k1 _ 8 none (by rw [o10, Function.update_same])
    _ = _ := getO_step _ 8 none k1 _ 16 none (by rw [o11, Function.update_same])
    _ = _ := getO_step _ 16 none k1 _ 24 none (by rw [o12, Function.update_same])
    _ = .ok v1 := g3
  · have g3 : getO (internalOld (Function.update (Function.update allEmpty d1 L1) d2 L2)
        24 none) k2 = .ok v2 := by
      apply getO_leaf
      rw [o23, Function.update_same]
    calc getO _ k2 = _ := getO_step _ 0 none k2 _ 8 none (by rw [o20, Function.update_same])
    _ = _ := getO_step _ 8 none k2 _ 16 none (by rw [o21, Function.update_same])
    _ = _ := getO_step _ 16 none k2 _ 24 none (by rw [o22, Function.update_same])
    _ = .ok v2 := g3

/-- Witness for C1 at the concrete keys `exK1`/`exK2` (shared bytes
0,1,2; differing byte 3) with fuel 40. -/
theorem claim_C1_witness :
    ((3 : Nat) ≠ 4 ∧ (List.replicate 28 (0 : Nat)).length = 28) ∧
    Old.pathInternalCount
      (Old.insertO 40 (Old.insertO 40 Old.newRoot Old.exK1 Old.exV1).1
        Old.exK2 Old.exV2).1 Old.exK1 = 4 ∧
    Old.getO
      (Old.insertO 40 (Old.insertO 40 Old.newRoot Old.exK1 Old.exV1).1
        Old.exK2 Old.exV2).1 Old.exK1 = .ok Old.exV1 ∧
    Old.getO
      (Old.insertO 40 (Old.insertO 40 Old.newRoot Old.exK1 Old.exV1).1
        Old.exK2 Old.exV2).1 Old.exK2 = .ok Old.exV2 :=
  ⟨⟨by decide, by decide⟩,
   (claim_C1 36 0 1 2 3 4 (List.replicate 28 0) (List.replicate 28 0)
     Old.exV1 Old.exV2 (by decide) (by decide) (by decide)).2.2.1,
   (claim_C1 36 0 1 2 3 4 (List.replicate 28 0) (List.replicate 28 0)
     Old.exV1 Old.exV2 (by decide) (by decide) (by decide)).2.2.2.2.2.1,
   (claim_C1 36 0 1 2 3 4 (List.replicate 28 0) (List.replicate 28 0)
     Old.exV1 Old.exV2 (by decide) (by decide) (by decide)).2.2.2.2.2.2⟩

/-- C2 counterexample: the root created by `NewStateless`
(stateless.go line 76) carries the group generator as its commitment,
not the group identity, before any insertion. -/
theorem claim_C2_counterexample :
    SL.snCommitment SL.newStateless ≠ some PointIdentity := by
  decide

/-- C2 (amended): the root created by `New`, before any insertion,
computes the identity commitment (all 256 children empty, so every
polynomial entry is zero); the root created by `NewStateless` is instead
initialized with the group generator as its commitment. -/
theorem claim_C2_amended :
    Old.commitmentOf 1 Old.newRoot = PointIdentity ∧
    SL.snCommitment SL.newStateless = some PointGenerator := by
  constructor
  · decide
  · decide

/-- C5 counterexample: on a fresh tree (every child of the root is
`Empty`), `Get` returns the error `"trying to read from an invalid
child"` instead of the claimed absent value without error. -/
theorem claim_C5_counterexample :
    Old.getO Old.newRoot (List.replicate 32 0) = .error .readInvalidChild := by
  decide

open Old Old.ONode in
/-- C5 (amended): `InternalNode.Get` treats `Empty` and `Hashed`
children alike — both produce the error `"trying to read from an
invalid child"`; the read is free of mutation (the embedded `getO` is a
pure function of the tree because the source writes no field on this
path). -/
theorem claim_C5_amended (children : Nat → ONode) (depth : Nat)
    (cm : Option Point) (k : Bytes) :
    (children (offset2Key k depth) = emptyNode →
      getO (internalOld children depth cm) k = .error .readInvalidChild) ∧
    (∀ h c, children (offset2Key k depth) = hashedOld h c →
      getO (internalOld children depth cm) k = .error .readInvalidChild) := by
  constructor
  · intro h
    rw [getO, h]
    simp [invalidReadChild]
  · intro hb c h
    rw [getO, h]
    simp [invalidReadChild]

/-- Witness for C5 (amended): the fresh root with an `Empty` child at
the queried slot. -/
theorem claim_C5_amended_witness :
    Old.allEmpty (Old.offset2Key (List.replicate 32 0) 0) = Old.ONode.emptyNode ∧
    Old.getO (Old.ONode.internalOld Old.allEmpty 0 none) (List.replicate 32 0) =
      .error .readInvalidChild :=
  ⟨rfl, (claim_C5_amended Old.allEmpty 0 none (List.replicate 32 0)).1 rfl⟩

open SL in
/-- C3 (code bug): for the leaf-mode node `exLeaf35`, which stores the
suffixes 130 and 5 (so a suffix < 128 is present) with its `values` map
iterating suffix 130 first, proof extraction succeeds but emits the
evaluation points `[0, 1, 3, 10, 11, 4, 5]`: the extension-level
opening `(C, 2, to_fr(C1))` is missing even though suffix 5 < 128 is
stored, because the `hasC1`/`hasC2` scan (stateless.go lines 569-575)
breaks out of the loop as soon as `hasC2` is true, before ever seeing
suffix 5.  The fixed order of the other openings — `(C,0,1)`,
`(C,1,stem)`, then `(C,3,to_fr(C2))`, before the per-suffix openings —
is as claimed. -/
theorem claim_C3_bug :
    (getProofItems 2 exLeaf35 []).2 = none ∧
    ((getProofItems 2 exLeaf35 []).1).Zis = [0, 1, 3, 10, 11, 4, 5] ∧
    alookup (snValuesL exLeaf35) 5 = some (some (List.replicate 32 8)) ∧
    ¬ (2 ∈ ((getProofItems 2 exLeaf35 []).1).Zis) := by
  refine ⟨by decide, by decide, by decide, by decide⟩

open SL in
/-- C4 (code bug): `exLeafAB` and `exLeafBA` are the same leaf-mode
tree state — identical stem, commitment, `C1`, `C2`, and `values` maps
that are permutations of one another (map iteration order is the only
difference) — yet proof extraction emits different `Zis` sequences
(`[0,1,2,3,20,21,144,145]` versus `[0,1,3,20,21,144,145]`): the output
depends on the map-iteration order through the early-breaking
`hasC1`/`hasC2` scan, so two runs over one map need not agree. -/
theorem claim_C4_bug :
    (snValuesL exLeafAB).Perm (snValuesL exLeafBA) ∧
    (getProofItems 2 exLeafAB []).2 = none ∧
    (getProofItems 2 exLeafBA []).2 = none ∧
    ((getProofItems 2 exLeafAB []).1).Zis = [0, 1, 2, 3, 20, 21, 144, 145] ∧
    ((getProofItems 2 exLeafBA []).1).Zis = [0, 1, 3, 20, 21, 144, 145] ∧
    ((getProofItems 2 exLeafAB []).1).Zis ≠ ((getProofItems 2 exLeafBA []).1).Zis := by
  refine ⟨by decide, by decide, by decide, by decide, by decide, by decide⟩

open SL in
/-- C8 (code bug): on the reconstructed tree `exRoot8`, whose child at
slot 5 is a leaf with a different stem, `insert_value` of `exKey8`
returns no error — the recursive call does produce
`errInsertIntoOtherStem` (second conjunct), but the caller discards the
recursion's result (stateless.go line 404), so the error never reaches
the caller.  Inserting a non-empty value at an absent (proof-of-absence)
child is a Go panic, not a returned error (third conjunct). -/
theorem claim_C8_bug :
    (insertValueS 10 exRoot8 exKey8 (List.replicate 32 6)).2 = none ∧
    (insertValueS 10 exLeafOther exKey8 (List.replicate 32 6)).2 =
      some .insertIntoOtherStem ∧
    (insertValueS 10 exRoot8b exKey8 (List.replicate 32 6)).2 = some .panicked := by
  refine ⟨by decide, by decide, by decide⟩

open SL in
/-- C9: `cowChild` takes the copy-on-write snapshot of slot `index` at
the first touch in the batch — recording a copy of the child's current
commitment — and any later touch of the same slot in the same batch
(including after the child itself was replaced or mutated) leaves the
snapshot unchanged. -/
theorem claim_C9 (d : SNCore SL.SN) (cs : List (Nat × Option SL.SN))
    (i : Nat) (c : SL.SN) (p : Point)
    (hch : d.children = some cs)
    (hc : (alookup cs i).join = some c)
    (hp : snCommitment c = some p) :
    (alookup (d.cow.getD []) i = none →
      cowChild d i = ({ d with cow := some (aset (d.cow.getD []) i p) }, none)) ∧
    (∀ m q, d.cow = some m → alookup m i = some q →
      cowChild d i = (d, none) ∧
      ∀ c2, (cowChild { d with children := some (aset cs i (some c2)) } i).1.cow =
        some m) := by
  constructor
  · intro hnone
    simp only [cowChild, hch, hnone, hc, hp]
  · intro m q hm hq
    constructor
    · simp only [cowChild, hch, hm, Option.getD_some, hq]
      rw [← hch, ← hm]
    · intro c2
      simp only [cowChild, hm, Option.getD_some, hq]

open SL in
/-- Witness for C9: a node whose slot 0 holds an `Empty` child and has
no snapshot yet; `cowChild` records the identity (the `Empty`
commitment) as the snapshot. -/
theorem claim_C9_witness :
    (exCowNode.children = some [(0, some SL.SN.emptyNd)] ∧
      (alookup [((0 : Nat), some SL.SN.emptyNd)] 0).join = some SL.SN.emptyNd ∧
      snCommitment SL.SN.emptyNd = some PointIdentity) ∧
    cowChild exCowNode 0 =
      ({ exCowNode with cow := some (aset (exCowNode.cow.getD []) 0 PointIdentity) },
        none) :=
  ⟨⟨rfl, rfl, rfl⟩,
   (claim_C9 exCowNode [(0, some SL.SN.emptyNd)] 0 SL.SN.emptyNd PointIdentity
     rfl rfl rfl).1 rfl⟩

open SL in
/-- C10: `Commit` on a leaf-mode stateless node (non-empty `values`
map) hits the "stateless leaf nodes are currently broken" skip branch
(stateless.go lines 460-461): it returns the stored commitment and the
state unchanged, never recomputing from the values, the stem or
`C1`/`C2`. -/
theorem claim_C10 (d : SNCore SL.SN) (v0 : Nat × Option Bytes)
    (vrest : List (Nat × Option Bytes)) (fuel : Nat)
    (h : d.values = some (v0 :: vrest)) :
    snCommit (fuel + 1) (.node d) = (.node d, d.commitment) := by
  rw [snCommit, h]

open SL in
/-- Witness for C10 at the concrete leaf-mode node `exLeafMode`. -/
theorem claim_C10_witness :
    exLeafMode.values = some [(0, some (List.replicate 32 1))] ∧
    snCommit 3 (.node exLeafMode) = (.node exLeafMode, exLeafMode.commitment) :=
  ⟨rfl, claim_C10 exLeafMode (0, some (List.replicate 32 1)) [] 2 rfl⟩

namespace SL

/-- Association lists: looking up a just-written slot. -/
theorem alookup_aset_self {κ α : Type} [DecidableEq κ] (l : List (κ × α))
    (i : κ) (v : α) : alookup (aset l i v) i = some v := by
  induction l with
  | nil => simp [aset, alookup]
  | cons hd tl ih =>
    by_cases h : hd.1 = i
    · simp [aset, alookup, h]
    · cases hd
      simp_all [aset, alookup, h]

/-- Association lists: looking up a just-deleted slot. -/
theorem alookup_adel_self {κ α : Type} [DecidableEq κ] (l : List (κ × α))
    (i : κ) : alookup (adel l i) i = none := by
  induction l with
  | nil => simp [adel, alookup]
  | cons hd tl ih =>
    cases hd with
    | mk k w =>
      by_cases h : k = i
      · simp [adel, h, ih]
      · simp [adel, alookup, h, ih]

/-- `cowChild` only writes the `cow` field. -/
theorem cowChild_fst_unresolved (d : SNCore SN) (i : Nat) :
    (cowChild d i).1.unresolved = d.unresolved := by
  rw [cowChild]
  split <;> rfl

theorem cowChild_fst_children (d : SNCore SN) (i : Nat) :
    (cowChild d i).1.children = d.children := by
  rw [cowChild]
  split <;> rfl

theorem cowChild_fst_values (d : SNCore SN) (i : Nat) :
    (cowChild d i).1.values = d.values := by
  rw [cowChild]
  split <;> rfl

theorem cowChild_fst_depth (d : SNCore SN) (i : Nat) :
    (cowChild d i).1.depth = d.depth := by
  rw [cowChild]
  split <;> rfl

/-- The leaf-mode update sweep never touches the `unresolved` map. -/
theorem snUpdateLeaves_unresolved (d : SNCore SN) (values : List (Option Bytes)) :
    (snUpdateLeaves d values).1.unresolved = d.unresolved := by
  cases hdv : d.values with
  | none => simp [snUpdateLeaves, hdv]
  | some vals =>
    simp only [snUpdateLeaves, hdv]
    split <;> rfl

theorem childLookup_getD (m : Option (List (Nat × Option SN))) (i : Nat) :
    (alookup (m.getD []) i).join = childLookup m i := by
  cases m <;> simp [childLookup, alookup]

/-- The insert dispatch never touches the receiver's `unresolved` map. -/
theorem insertDispatch_unresolved (recur : SN → SN × Option GoErr)
    (d : SNCore SN) (nChild : Nat) (stem : Bytes) (values : List (Option Bytes)) :
    snUnresolvedL (insertDispatch recur d nChild stem values).1 =
      d.unresolved.getD [] := by
  rw [insertDispatch]
  repeat' split
  all_goals rfl

theorem insertAfterResolve_unresolved (recur : SN → SN × Option GoErr)
    (d : SNCore SN) (nChild : Nat) (stem : Bytes) (values : List (Option Bytes)) :
    snUnresolvedL (insertAfterResolve recur d nChild stem values).1 =
      d.unresolved.getD [] := by
  rw [insertAfterResolve]
  split
  · simp [snUnresolvedL, cowChild_fst_unresolved]
  · rw [insertDispatch_unresolved, cowChild_fst_unresolved]

/-- Hash resolution during an insert installs the parsed child but never
deletes the `unresolved` entry. -/
theorem insertResolveStep_unresolved (recur : SN → SN × Option GoErr)
    (resolver : Resolver) (d : SNCore SN) (nChild : Nat) (stem : Bytes)
    (values : List (Option Bytes)) :
    snUnresolvedL (insertResolveStep recur resolver d nChild stem values).1 =
      d.unresolved.getD [] := by
  rw [insertResolveStep]
  repeat' split
  all_goals first
    | rfl
    | rw [insertAfterResolve_unresolved]

/-- `InsertAtStem` leaves the receiver's `unresolved` map unchanged in
every branch — in particular, resolving a hashed child installed from an
unresolved entry does not delete that entry. -/
theorem insertAtStem_unresolvedL (f : Nat) (s : SN) (stem : Bytes)
    (values : List (Option Bytes)) (resolver : Resolver) :
    snUnresolvedL (insertAtStem f s stem values resolver).1 = snUnresolvedL s := by
  cases f with
  | zero => cases s <;> rfl
  | succ f =>
    cases s with
    | leafNd lf => rfl
    | hashedNd b c => rfl
    | emptyNd => rfl
    | node d =>
      simp only [insertAtStem]
      cases hdv : d.values with
      | some vals => simp [snUnresolvedL, snUpdateLeaves_unresolved]
      | none =>
        simp only []
        repeat' split
        all_goals first
          | (rw [insertResolveStep_unresolved]; simp [snUnresolvedL])
          | simp [snUnresolvedL, cowChild_fst_unresolved]

end SL

open SL in
/-- C6 (amended): the two resolution paths behave differently.
`Get`-driven resolution maintains the exclusivity of `unresolved[i]` and
`children[i]`: it installs the parsed child and deletes the unresolved
entry.  `InsertAtStem`-driven resolution installs the child but leaves
the stale `unresolved[i]` entry in place (it never modifies the
`unresolved` map at all); the entry is shadowed, since every reader
consults `children[i]` first. -/
theorem claim_C6_amended :
    (∀ (d : SNCore SN) (k : Bytes) (getter : Resolver) (ser serialized : Bytes)
      (child : SN) (g : Nat),
      d.values = none →
      childLookup d.children (offset2key k d.depth) = none →
      alookup (d.unresolved.getD []) (offset2key k d.depth) = some ser →
      getter ser = .ok serialized →
      parseStatelessNode serialized (d.depth + 1) ser = .ok child →
      alookup (snUnresolvedL (snGet (g + 1) (.node d) k getter).1)
        (offset2key k d.depth) = none ∧
      (snChildL (snGet (g + 1) (.node d) k getter).1
        (offset2key k d.depth)).isSome = true) ∧
    (∀ (f : Nat) (s : SN) (stem : Bytes) (values : List (Option Bytes))
      (resolver : Resolver),
      snUnresolvedL (insertAtStem f s stem values resolver).1 = snUnresolvedL s) := by
  constructor
  · intro d k getter ser serialized child g hv hcl hun hget hparse
    simp only [snGet, hv, hcl, hun, hget, hparse]
    constructor
    · simp [snUnresolvedL, alookup_adel_self]
    · simp [snChildL, childLookup, alookup_aset_self]
  · intro f s stem values resolver
    exact insertAtStem_unresolvedL f s stem values resolver

open SL in
/-- Witness for C6 (amended), on the concrete unresolved slot 7 of
`exUnresolvedNode` with the resolver `exResolver`: the `Get` path
deletes the entry and installs the child; the insert path (applied via
the preservation conjunct) keeps it. -/
theorem claim_C6_amended_witness :
    (exUNCore.values = none ∧ exResolver exUBytes = .ok exSerLeaf) ∧
    (alookup (snUnresolvedL (snGet 3 (.node exUNCore) exStem7 exResolver).1) 7 = none ∧
      (snChildL (snGet 3 (.node exUNCore) exStem7 exResolver).1 7).isSome = true) ∧
    snUnresolvedL (insertAtStem 5 exUnresolvedNode exStem7
      (List.replicate 256 none) exResolver).1 = snUnresolvedL exUnresolvedNode :=
  ⟨⟨rfl, rfl⟩,
   claim_C6_amended.1 exUNCore exStem7 exResolver exUBytes exSerLeaf
     exParsedLeaf 2 rfl rfl rfl rfl rfl,
   claim_C6_amended.2 5 exUnresolvedNode exStem7 (List.replicate 256 none)
     exResolver⟩

open SL in
/-- C6 counterexample: inserting through the unresolved entry at slot 7
of `exUnresolvedNode` resolves and installs the child, and the insert
succeeds, but the `unresolved[7]` entry is still present afterwards —
`children[7]` and `unresolved[7]` are simultaneously populated,
violating the claimed mutual exclusion. -/
theorem claim_C6_counterexample :
    (insertAtStem 5 exUnresolvedNode exStem7 (List.replicate 256 none) exResolver).2 =
      none ∧
    (snChildL (insertAtStem 5 exUnresolvedNode exStem7 (List.replicate 256 none)
      exResolver).1 7).isSome = true ∧
    alookup (snUnresolvedL (insertAtStem 5 exUnresolvedNode exStem7
      (List.replicate 256 none) exResolver).1) 7 = some exUBytes := by
  refine ⟨by decide, by decide, by decide⟩

namespace SL

theorem take_succ_getD {α : Type} (d : α) :
    ∀ (l : List α) (n : Nat), n < l.length → l.take (n + 1) = l.take n ++ [l.getD n d]
  | [], n, h => absurd h (by simp)
  | x :: xs, 0, _ => by simp [List.getD]
  | x :: xs, n + 1, h => by
    simp only [List.take, List.cons_append, List.cons.injEq, true_and]
    exact take_succ_getD d xs n (by simpa using h)

theorem getD_append_left {α : Type} (d : α) :
    ∀ (l1 l2 : List α) (n : Nat), n < l1.length → (l1 ++ l2).getD n d = l1.getD n d
  | [], _, n, h => absurd h (by simp)
  | x :: xs, l2, 0, _ => by simp [List.getD]
  | x :: xs, l2, n + 1, h => by
    simp only [List.cons_append, List.getD_cons_succ]
    exact getD_append_left d xs l2 n (by simpa using h)

theorem getD_append_len {α : Type} (d : α) :
    ∀ (l1 : List α) (x : α), (l1 ++ [x]).getD l1.length d = x
  | [], x => by simp [List.getD]
  | y :: ys, x => by
    simp only [List.cons_append, List.length_cons, List.getD_cons_succ]
    exact getD_append_len d ys x

theorem take_append_len {α : Type} :
    ∀ (l1 l2 : List α), (l1 ++ l2).take l1.length = l1
  | [], l2 => by simp
  | x :: xs, l2 => by
    simp only [List.cons_append, List.length_cons, List.take, List.cons.injEq, true_and]
    exact take_append_len xs l2

theorem getD_set_self {α : Type} (d : α) :
    ∀ (l : List α) (n : Nat) (v : α), n < l.length → (l.set n v).getD n d = v
  | [], n, v, h => absurd h (by simp)
  | x :: xs, 0, v, _ => by simp [List.getD]
  | x :: xs, n + 1, v, h => by
    simp only [List.set, List.getD_cons_succ]
    exact getD_set_self d xs n v (by simpa using h)

theorem getD_set_ne {α : Type} (d : α) :
    ∀ (l : List α) (n m : Nat) (v : α), n ≠ m → (l.set n v).getD m d = l.getD m d
  | [], n, m, v, h => by simp
  | x :: xs, 0, 0, v, h => absurd rfl h
  | x :: xs, 0, m + 1, v, h => by simp [List.getD]
  | x :: xs, n + 1, 0, v, h => by simp [List.getD]
  | x :: xs, n + 1, m + 1, v, h => by
    simp only [List.set, List.getD_cons_succ]
    exact getD_set_ne d xs n m v (fun hx => h (by simp [hx]))

theorem mem_keys_aset {κ α : Type} [DecidableEq κ] :
    ∀ (l : List (κ × α)) (i : κ) (v : α) (x : κ),
      x ∈ (aset l i v).map Prod.fst → x ∈ l.map Prod.fst ∨ x = i
  | [], i, v, x, h => by
    simp [aset] at h
    exact Or.inr h
  | (k, w) :: rest, i, v, x, h => by
    rw [aset] at h
    by_cases hk : k = i
    · rw [if_pos hk] at h
      simp only [List.map_cons, List.mem_cons] at h ⊢
      rcases h with h | h
      · exact Or.inr h
      · exact Or.inl (Or.inr h)
    · rw [if_neg hk] at h
      simp only [List.map_cons, List.mem_cons] at h ⊢
      rcases h with h | h
      · exact Or.inl (Or.inl h)
      · rcases mem_keys_aset rest i v x h with h1 | h1
        · exact Or.inl (Or.inr h1)
        · exact Or.inr h1

theorem aset_keys_nodup {κ α : Type} [DecidableEq κ] :
    ∀ (l : List (κ × α)) (i : κ) (v : α),
      (l.map Prod.fst).Nodup → ((aset l i v).map Prod.fst).Nodup
  | [], i, v, _ => by simp [aset]
  | (k, w) :: rest, i, v, h => by
    rw [aset]
    simp only [List.map_cons, List.nodup_cons] at h
    by_cases hk : k = i
    · rw [if_pos hk]
      subst hk
      simp only [List.map_cons, List.nodup_cons]
      exact h
    · rw [if_neg hk]
      simp only [List.map_cons, List.nodup_cons]
      refine ⟨?_, aset_keys_nodup rest i v h.2⟩
      intro hmem
      rcases mem_keys_aset rest i v k hmem with h1 | h1
      · exact h.1 h1
      · exact hk h1

theorem mem_aset_nodup {κ α : Type} [DecidableEq κ] :
    ∀ (l : List (κ × α)) (i : κ) (v : α) (p : κ × α),
      (l.map Prod.fst).Nodup → p ∈ aset l i v →
      p = (i, v) ∨ (p ∈ l ∧ p.1 ≠ i)
  | [], i, v, p, _, h => by
    simp [aset] at h
    exact Or.inl h
  | (k, w) :: rest, i, v, p, hnd, h => by
    rw [aset] at h
    simp only [List.map_cons, List.nodup_cons] at hnd
    by_cases hk : k = i
    · rw [if_pos hk] at h
      rcases List.mem_cons.1 h with h1 | h1
      · exact Or.inl h1
      · refine Or.inr ⟨List.mem_cons_of_mem _ h1, fun hp => ?_⟩
        subst hk
        exact hnd.1 (hp ▸ List.mem_map_of_mem Prod.fst h1)
    · rw [if_neg hk] at h
      rcases List.mem_cons.1 h with h1 | h1
      · subst h1
        exact Or.inr ⟨List.mem_cons_self _ _, hk⟩
      · rcases mem_aset_nodup rest i v p hnd.2 h1 with h2 | ⟨h2, h3⟩
        · exact Or.inl h2
        · exact Or.inr ⟨List.mem_cons_of_mem _ h2, h3⟩

theorem leafUpdStep_failed (c1o c2o : Option Point)
    (st : UpdState (List (Option Bytes))) (i : Nat) (v : Option Bytes)
    (h : st.failed = true) : leafUpdStep c1o c2o st i v = st := by
  rw [leafUpdStep.eq_def, if_pos h]

theorem leafUpdStep_length (c1o c2o : Option Point)
    (st : UpdState (List (Option Bytes))) (i : Nat) (v : Option Bytes) :
    (leafUpdStep c1o c2o st i v).vals.length = st.vals.length := by
  rw [leafUpdStep.eq_def]
  repeat' split
  all_goals try rfl
  all_goals simp only []
  all_goals split_ifs <;> simp [List.length_set]

theorem leafUpdStep_failed_mono (c1o c2o : Option Point)
    (st : UpdState (List (Option Bytes))) (i : Nat) (v : Option Bytes)
    (h : (leafUpdStep c1o c2o st i v).failed = false) : st.failed = false := by
  by_cases hf : st.failed = true
  · rw [leafUpdStep_failed c1o c2o st i v hf] at h
    rw [h] at hf
    exact absurd hf (by simp)
  · simpa using hf

theorem leafUpdStep_getD_ne (c1o c2o : Option Point)
    (st : UpdState (List (Option Bytes))) (i j : Nat) (v : Option Bytes)
    (hne : i ≠ j) :
    (leafUpdStep c1o c2o st i v).vals.getD j none = st.vals.getD j none := by
  rw [leafUpdStep.eq_def]
  repeat' split
  all_goals try rfl
  all_goals simp only []
  all_goals split_ifs <;> first
    | rfl
    | exact getD_set_ne _ _ _ _ _ hne

theorem leafUpdStep_at (c1o c2o : Option Point)
    (st : UpdState (List (Option Bytes))) (suffix : Nat) (v : Bytes)
    (hlen : suffix < st.vals.length) (hv : v ≠ []) :
    (leafUpdStep c1o c2o st suffix (some v)).failed = true ∨
    (leafUpdStep c1o c2o st suffix (some v)).vals.getD suffix none = some v := by
  rw [leafUpdStep.eq_def]
  by_cases hf : st.failed = true
  · rw [if_pos hf]
    exact Or.inl hf
  · rw [if_neg hf]
    simp only []
    by_cases hemp : v = []
    · exact absurd hemp hv
    · rw [if_neg hemp]
      by_cases heq : v = (st.vals.getD suffix none).getD []
      · rw [if_pos heq]
        right
        rcases hsl : st.vals.getD suffix none with _ | w
        · rw [hsl] at heq
          simp at heq
          exact absurd heq hv
        · rw [hsl] at heq
          simp at heq
          rw [heq]
      · rw [if_neg heq]
        by_cases hlt : suffix < 128
        · rw [if_pos hlt]
          rcases st.c1s.orElse fun _ => c1o.map fun c => (c, toFr c) with _ | pr
          · exact Or.inl rfl
          · right
            simp only []
            exact getD_set_self _ _ _ _ hlen
        · rw [if_neg hlt]
          rcases st.c2s.orElse fun _ => c2o.map fun c => (c, toFr c) with _ | pr
          · exact Or.inl rfl
          · right
            simp only []
            exact getD_set_self _ _ _ _ hlen

theorem leafUpd_fold_length (c1o c2o : Option Point) (values : List (Option Bytes)) :
    ∀ (idxs : List Nat) (st : UpdState (List (Option Bytes))),
      ((idxs.foldl (fun st i => leafUpdStep c1o c2o st i (values.getD i none)) st).vals).length =
        st.vals.length
  | [], st => rfl
  | i :: rest, st => by
    rw [List.foldl_cons]
    rw [leafUpd_fold_length c1o c2o values rest _]
    exact leafUpdStep_length c1o c2o st i _

theorem leafUpd_fold_failed (c1o c2o : Option Point) (values : List (Option Bytes)) :
    ∀ (idxs : List Nat) (st : UpdState (List (Option Bytes))),
      st.failed = true →
      idxs.foldl (fun st i => leafUpdStep c1o c2o st i (values.getD i none)) st = st
  | [], st, _ => rfl
  | i :: rest, st, h => by
    rw [List.foldl_cons, leafUpdStep_failed c1o c2o st i _ h]
    exact leafUpd_fold_failed c1o c2o values rest st h

theorem leafUpd_fold_getD_notmem (c1o c2o : Option Point)
    (values : List (Option Bytes)) (suffix : Nat) :
    ∀ (idxs : List Nat) (st : UpdState (List (Option Bytes))),
      ¬ (suffix ∈ idxs) →
      ((idxs.foldl (fun st i => leafUpdStep c1o c2o st i (values.getD i none)) st).vals).getD
        suffix none = st.vals.getD suffix none
  | [], st, _ => rfl
  | i :: rest, st, h => by
    rw [List.foldl_cons]
    rw [leafUpd_fold_getD_notmem c1o c2o values suffix rest _
      (fun hm => h (List.mem_cons_of_mem _ hm))]
    exact leafUpdStep_getD_ne c1o c2o st i suffix _ (fun he => h (he ▸ List.mem_cons_self _ _))

theorem leafUpd_fold_main (c1o c2o : Option Point) (values : List (Option Bytes))
    (suffix : Nat) (v : Bytes) (hv : v ≠ [])
    (hval : values.getD suffix none = some v) :
    ∀ (idxs : List Nat) (st : UpdState (List (Option Bytes))),
      suffix ∈ idxs → idxs.Nodup → suffix < st.vals.length →
      (idxs.foldl (fun st i => leafUpdStep c1o c2o st i (values.getD i none)) st).failed = true ∨
      ((idxs.foldl (fun st i => leafUpdStep c1o c2o st i (values.getD i none)) st).vals).getD
        suffix none = some v := by
  intro idxs st hmem hnd hlen
  obtain ⟨X, Y, rfl⟩ := List.append_of_mem hmem
  have hY : ¬ (suffix ∈ Y) := by
    have := hnd.sublist (List.sublist_append_right X (suffix :: Y))
    simp only [List.nodup_cons] at this
    exact this.1
  rw [List.foldl_append, List.foldl_cons]
  set st1 := X.foldl (fun st i => leafUpdStep c1o c2o st i (values.getD i none)) st with hst1
  have hlen1 : suffix < st1.vals.length := by
    rw [hst1, leafUpd_fold_length]
    exact hlen
  have hstep := leafUpdStep_at c1o c2o st1 suffix v hlen1 hv
  rw [hval]
  rcases hstep with hfail | hok
  · left
    rw [leafUpd_fold_failed c1o c2o values Y _ hfail, hfail]
  · rcases hfin : (Y.foldl (fun st i => leafUpdStep c1o c2o st i (values.getD i none))
        (leafUpdStep c1o c2o st1 suffix (some v))).failed with _ | _
    · right
      rw [leafUpd_fold_getD_notmem c1o c2o values suffix Y _ hY]
      exact hok
    · left
      rfl

theorem leafUpdateML_stem (lf : LeafData) (values : List (Option Bytes)) :
    (leafUpdateML lf values).1.stem = lf.stem := by
  simp only [leafUpdateML]
  repeat' split
  all_goals rfl

theorem leafUpdateML_depth (lf : LeafData) (values : List (Option Bytes)) :
    (leafUpdateML lf values).1.depth = lf.depth := by
  simp only [leafUpdateML]
  repeat' split
  all_goals rfl

theorem leafUpdateML_values (lf : LeafData) (values : List (Option Bytes)) :
    (leafUpdateML lf values).1.values =
      ((List.range 256).foldl
        (fun st i => leafUpdStep lf.c1 lf.c2 st i (values.getD i none))
        { vals := lf.values, c1s := none, c2s := none, failed := false }).vals := by
  simp only [leafUpdateML]
  repeat' split
  all_goals rfl

theorem leafUpdateML_not_failed (lf : LeafData) (values : List (Option Bytes))
    (hok : (leafUpdateML lf values).2 = none) :
    ((List.range 256).foldl
      (fun st i => leafUpdStep lf.c1 lf.c2 st i (values.getD i none))
      { vals := lf.values, c1s := none, c2s := none, failed := false }).failed = false := by
  by_cases hf : ((List.range 256).foldl
      (fun st i => leafUpdStep lf.c1 lf.c2 st i (values.getD i none))
      { vals := lf.values, c1s := none, c2s := none, failed := false }).failed = true
  · exfalso
    revert hok
    simp only [leafUpdateML, hf]
    simp
  · simpa using hf

theorem leafUpdateML_length (lf : LeafData) (values : List (Option Bytes)) :
    (leafUpdateML lf values).1.values.length = lf.values.length := by
  rw [leafUpdateML_values, leafUpd_fold_length]

theorem leafUpdateML_getD (lf : LeafData) (values : List (Option Bytes))
    (suffix : Nat) (v : Bytes)
    (hlen : lf.values.length = 256) (hsuf : suffix < 256)
    (hval : values.getD suffix none = some v) (hv : v ≠ [])
    (hok : (leafUpdateML lf values).2 = none) :
    (leafUpdateML lf values).1.values.getD suffix none = some v := by
  rw [leafUpdateML_values]
  have := leafUpd_fold_main lf.c1 lf.c2 values suffix v hv hval (List.range 256)
    { vals := lf.values, c1s := none, c2s := none, failed := false }
    (List.mem_range.2 hsuf) (List.nodup_range 256) (by simpa [hlen] using hsuf)
  rcases this with hfail | hok2
  · exact absurd (leafUpdateML_not_failed lf values hok) (by rw [hfail]; simp)
  · exact hok2

theorem leafCommit_stem (lf : LeafData) : (leafCommit lf).stem = lf.stem := rfl

theorem leafCommit_values (lf : LeafData) : (leafCommit lf).values = lf.values := rfl

theorem leafCommit_depth (lf : LeafData) : (leafCommit lf).depth = lf.depth := rfl

theorem snGet_leafNd (g : Nat) (lf : LeafData) (k : Bytes) (getter : Resolver) :
    snGet (g + 1) (.leafNd lf) k getter = (.leafNd lf, .ok (leafGet lf k)) := rfl

theorem snGet_descend (g : Nat) (d : SNCore SN) (k : Bytes) (getter : Resolver)
    (c : SN) (hv : d.values = none)
    (hc : childLookup d.children (offset2key k d.depth) = some c) :
    (snGet (g + 1) (.node d) k getter).2 = (snGet g c k getter).2 := by
  simp only [snGet, hv, hc]

theorem alookup_mem {κ α : Type} [DecidableEq κ] :
    ∀ (l : List (κ × α)) (i : κ) (v : α), alookup l i = some v → (i, v) ∈ l
  | [], i, v, h => by simp [alookup] at h
  | (k, w) :: rest, i, v, h => by
    rw [alookup] at h
    by_cases hk : k = i
    · rw [if_pos hk] at h
      subst hk
      cases h
      exact List.mem_cons_self _ _
    · rw [if_neg hk] at h
      exact List.mem_cons_of_mem _ (alookup_mem rest i v h)

theorem leafGet_at (lf : LeafData) (stem : Bytes) (suffix : Nat)
    (hsl : stem.length = 31) (hstem : lf.stem = stem) :
    leafGet lf (stem ++ [suffix]) = lf.values.getD suffix none := by
  rw [leafGet, hstem]
  rw [show (stem ++ [suffix]).take 31 = stem from by
    rw [← hsl]; exact take_append_len stem _]
  rw [show stem.take 31 = stem from by
    conv_lhs => rw [← hsl]
    exact List.take_length stem]
  rw [if_pos rfl]
  rw [show (stem ++ [suffix]).getD 31 0 = suffix from by
    rw [← hsl]; exact getD_append_len 0 stem suffix]

theorem insertResolveStep_node (recur : SN → SN × Option GoErr)
    (resolver : Resolver) (d : SNCore SN) (nChild : Nat) (stem : Bytes)
    (values : List (Option Bytes)) (dc : SNCore SN)
    (h : childLookup d.children nChild = some (.node dc)) :
    insertResolveStep recur resolver d nChild stem values =
      insertAfterResolve recur d nChild stem values := by
  rw [insertResolveStep, h]

theorem insertResolveStep_leafNd (recur : SN → SN × Option GoErr)
    (resolver : Resolver) (d : SNCore SN) (nChild : Nat) (stem : Bytes)
    (values : List (Option Bytes)) (lf : LeafData)
    (h : childLookup d.children nChild = some (.leafNd lf)) :
    insertResolveStep recur resolver d nChild stem values =
      insertAfterResolve recur d nChild stem values := by
  rw [insertResolveStep, h]

theorem insertAfterResolve_err (recur : SN → SN × Option GoErr)
    (d : SNCore SN) (nChild : Nat) (stem : Bytes) (values : List (Option Bytes))
    (err : GoErr) (h : (cowChild d nChild).2 = some err) :
    (insertAfterResolve recur d nChild stem values).2 = some err := by
  simp only [insertAfterResolve]
  rw [h]

theorem insertAfterResolve_ok (recur : SN → SN × Option GoErr)
    (d : SNCore SN) (nChild : Nat) (stem : Bytes) (values : List (Option Bytes))
    (h : (cowChild d nChild).2 = none) :
    insertAfterResolve recur d nChild stem values =
      insertDispatch recur (cowChild d nChild).1 nChild stem values := by
  simp only [insertAfterResolve]
  rw [h]

theorem insertDispatch_node (recur : SN → SN × Option GoErr)
    (d : SNCore SN) (nChild : Nat) (stem : Bytes) (values : List (Option Bytes))
    (dc : SNCore SN)
    (h : childLookup d.children nChild = some (.node dc)) :
    insertDispatch recur d nChild stem values =
      (.node { d with children := some (aset (d.children.getD []) nChild
          (some (recur (.node dc)).1)) },
       (recur (.node dc)).2) := by
  rw [insertDispatch, h]

theorem insertDispatch_leaf_same (recur : SN → SN × Option GoErr)
    (d : SNCore SN) (nChild : Nat) (stem : Bytes) (values : List (Option Bytes))
    (lf : LeafData)
    (h : childLookup d.children nChild = some (.leafNd lf))
    (heq : equalPaths lf.stem stem) :
    insertDispatch recur d nChild stem values =
      (.node { d with children := some (aset (d.children.getD []) nChild
          (some (.leafNd (leafUpdateML lf values).1))) },
       (leafUpdateML lf values).2) := by
  simp only [insertDispatch, h]
  rw [if_pos heq]

theorem insertDispatch_leaf_diff (recur : SN → SN × Option GoErr)
    (d : SNCore SN) (nChild : Nat) (stem : Bytes) (values : List (Option Bytes))
    (lf : LeafData)
    (h : childLookup d.children nChild = some (.leafNd lf))
    (heq : ¬ equalPaths lf.stem stem) :
    insertDispatch recur d nChild stem values =
      (.node { d with children := some (aset (d.children.getD []) nChild
          (some (recur (rerootBranch lf)).1)), count := d.count + 1 },
       (recur (rerootBranch lf)).2) := by
  simp only [insertDispatch, h]
  rw [if_neg heq]
  rfl

theorem insertAtStem_wf_get (fuel : Nat) :
    ∀ (s : SN) (dep : Nat) (pre stem : Bytes)
      (values : List (Option Bytes)) (resolver : Resolver) (s2 : SN),
      WfS s dep pre → stem.length = 31 → stem.take dep = pre →
      values.length = 256 →
      insertAtStem fuel s stem values resolver = (s2, none) →
      WfS s2 dep pre ∧
      ∀ (suffix : Nat) (v : Bytes), suffix < 256 →
        values.getD suffix none = some v → v ≠ [] →
        ∀ (gf : Nat) (getter : Resolver), fuel + 1 ≤ gf →
          (snGet gf s2 (stem ++ [suffix]) getter).2 = .ok (some v) := by
  induction fuel with
  | zero =>
    intro s dep pre stem values resolver s2 _ _ _ _ hins
    simp [insertAtStem, Prod.ext_iff] at hins
  | succ f ih =>
    intro s dep pre stem values resolver s2 hwf hsl hpre hvl hins
    cases hwf with
    | leaf lf dep pre h1 h2 h3 h4 =>
      simp [insertAtStem, Prod.ext_iff] at hins
    | node d cs dep pre hval hch hunr hdep hdlt hnd hsome hkids =>
      have hdep31 : dep < 31 := by omega
      have hnCh : offset2key stem d.depth = stem.getD dep 0 := by
        rw [hdep]; rfl
      have htake1 : stem.take (dep + 1) = pre ++ [stem.getD dep 0] := by
        rw [take_succ_getD 0 stem dep (by rw [hsl]; exact hdep31), hpre]
      have hkey_at : ∀ suffix : Nat, (stem ++ [suffix]).getD dep 0 = stem.getD dep 0 := by
        intro suffix
        exact getD_append_left 0 stem [suffix] dep (by rw [hsl]; exact hdep31)
      have hkey_take : (stem ++ [(0:Nat)]).take 31 = stem := by
        rw [← hsl]; exact take_append_len stem _
      simp only [insertAtStem, hval, hch, Option.getD_some] at hins
      rcases hjoin : (alookup cs (offset2key stem d.depth)).join with _ | child
      · -- CASE A: no child in the slot; creation path
        rw [hjoin] at hins
        have hue : (alookup (d.unresolved.getD []) (offset2key stem d.depth)).getD [] = [] := by
          rcases hunr with h | h <;> simp [h, alookup]
        rw [hue] at hins
        have hnl : newLeafChild d.depth stem values =
            some (leafCommit { newLeafNode stem values with depth := d.depth + 1 }) := by
          simp [newLeafChild, hvl]
        rw [hnl] at hins
        simp only [Prod.ext_iff] at hins
        obtain ⟨hs2, -⟩ := hins
        subst hs2
        constructor
        · refine WfS.node _ (aset (aset cs (offset2key stem d.depth) (some .emptyNd))
            (offset2key stem d.depth)
            (some (.leafNd (leafCommit { newLeafNode stem values with depth := d.depth + 1 }))))
            dep pre ?_ ?_ ?_ ?_ hdlt ?_ ?_ ?_
          · rw [cowChild_fst_values]
          · rfl
          · rw [cowChild_fst_unresolved]; exact hunr
          · rw [cowChild_fst_depth]; exact hdep
          · exact aset_keys_nodup _ _ _ (aset_keys_nodup _ _ _ hnd)
          · intro p hp
            rcases mem_aset_nodup _ _ _ p (aset_keys_nodup _ _ _ hnd) hp with h1 | ⟨h1, h2⟩
            · subst h1; rfl
            · rcases mem_aset_nodup _ _ _ p hnd h1 with h3 | ⟨h3, -⟩
              · exact absurd (congrArg Prod.fst h3) h2
              · exact hsome p h3
          · intro i c hmem
            rcases mem_aset_nodup _ _ _ (i, some c) (aset_keys_nodup _ _ _ hnd) hmem
              with h1 | ⟨h1, h2⟩
            · have hi : i = offset2key stem d.depth := congrArg Prod.fst h1
              have hc : some c = some (.leafNd
                  (leafCommit { newLeafNode stem values with depth := d.depth + 1 })) :=
                congrArg Prod.snd h1
              rw [Option.some.injEq] at hc
              subst hc
              subst hi
              refine WfS.leaf _ _ _ ?_ ?_ ?_ ?_
              · rw [leafCommit_stem]; exact hsl
              · rw [leafCommit_values]; exact hvl
              · rw [leafCommit_depth]; show d.depth + 1 = dep + 1; rw [hdep]
              · rw [leafCommit_stem]
                show stem.take (dep + 1) = pre ++ [offset2key stem d.depth]
                rw [htake1, hnCh]
            · rcases mem_aset_nodup _ _ _ (i, some c) hnd h1 with h3 | ⟨h3, -⟩
              · exact absurd (congrArg Prod.fst h3) h2
              · exact hkids i c h3
        · intro suffix v hsuf hv hvne gf getter hgf
          rcases gf with _ | g
          · omega
          rcases g with _ | g2
          · omega
          rw [snGet_descend (g2 + 1) _ _ getter
              (.leafNd (leafCommit { newLeafNode stem values with depth := d.depth + 1 }))
              (by rw [cowChild_fst_values]) ?_]
          · rw [snGet_leafNd]
            show Except.ok (leafGet _ _) = _
            rw [leafGet_at _ stem suffix hsl (by rw [leafCommit_stem]; rfl)]
            rw [leafCommit_values]
            show Except.ok (values.getD suffix none) = _
            rw [hv]
          · show childLookup _ (offset2key (stem ++ [suffix]) _) = _
            have hdd : ({ d with children := some (aset cs (offset2key stem d.depth)
                (some SN.emptyNd)) } : SNCore SN).depth = d.depth := rfl
            rw [cowChild_fst_depth, hdd]
            have hoo : offset2key (stem ++ [suffix]) d.depth = offset2key stem d.depth := by
              show (stem ++ [suffix]).getD d.depth 0 = stem.getD d.depth 0
              rw [hdep]
              exact hkey_at suffix
            rw [hoo]
            show (alookup (aset _ (offset2key stem d.depth) _) (offset2key stem d.depth)).join = _
            rw [alookup_aset_self]
            rfl
      · -- CASE B: a child is present
        rw [hjoin] at hins
        have hmem : (offset2key stem d.depth, some child) ∈ cs := by
          rcases hli : alookup cs (offset2key stem d.depth) with _ | oc
          · rw [hli] at hjoin; simp at hjoin
          · rw [hli] at hjoin
            cases oc with
            | none => simp at hjoin
            | some c0 =>
              simp at hjoin
              subst hjoin
              exact alookup_mem _ _ _ hli
        have wfc := hkids _ _ hmem
        cases child with
        | hashedNd b c => cases wfc
        | emptyNd => cases wfc
        | node dcc =>
          simp only [] at hins
          rw [insertResolveStep_node (fun c => insertAtStem f c stem values resolver)
            resolver { d with children := some cs, values := none } (offset2key stem d.depth)
            stem values dcc hjoin] at hins
          rcases hcow : (cowChild { d with children := some cs, values := none }
              (offset2key stem d.depth)).2 with _ | err
          · rw [insertAfterResolve_ok (fun c => insertAtStem f c stem values resolver)
              { d with children := some cs, values := none } (offset2key stem d.depth)
              stem values hcow] at hins
            have hcl : childLookup (cowChild { d with children := some cs, values := none }
                (offset2key stem d.depth)).1.children (offset2key stem d.depth) =
                some (SN.node dcc) := by
              rw [cowChild_fst_children]; exact hjoin
            rw [insertDispatch_node (fun c => insertAtStem f c stem values resolver)
              _ (offset2key stem d.depth) stem values dcc hcl] at hins
            have hgetD : ((cowChild { d with children := some cs, values := none }
                (offset2key stem d.depth)).1.children.getD []) = cs := by
              rw [cowChild_fst_children]
              rfl
            rcases hrec : insertAtStem f (SN.node dcc) stem values resolver with ⟨c2, e2⟩
            rw [hrec] at hins
            rw [Prod.mk.injEq] at hins
            obtain ⟨hs2, herr⟩ := hins
            subst herr
            subst hs2
            have htk : stem.take (dep + 1) = pre ++ [offset2key stem d.depth] := by
              rw [htake1, hnCh]
            obtain ⟨wfr, getr⟩ := ih (SN.node dcc) (dep + 1)
              (pre ++ [offset2key stem d.depth]) stem values resolver c2
              wfc hsl htk hvl hrec
            constructor
            · refine WfS.node _ (aset cs (offset2key stem d.depth) (some c2)) dep pre
                ?_ ?_ ?_ ?_ hdlt ?_ ?_ ?_
              · rw [cowChild_fst_values]
              · rw [hgetD]
              · rw [cowChild_fst_unresolved]; exact hunr
              · rw [cowChild_fst_depth]; exact hdep
              · exact aset_keys_nodup _ _ _ hnd
              · intro p hp
                rcases mem_aset_nodup _ _ _ p hnd hp with h1 | ⟨h1, -⟩
                · subst h1; rfl
                · exact hsome p h1
              · intro i cc hmm2
                rcases mem_aset_nodup _ _ _ (i, some cc) hnd hmm2 with h1 | ⟨h1, -⟩
                · have hi : i = offset2key stem d.depth := congrArg Prod.fst h1
                  have hc := Option.some.inj (congrArg Prod.snd h1)
                  subst hc
                  subst hi
                  exact wfr
                · exact hkids i cc h1
            · intro suffix v hsuf hv hvne gf getter hgf
              rcases gf with _ | g
              · omega
              rw [snGet_descend g _ _ getter c2 (by rw [cowChild_fst_values]) ?_]
              · exact getr suffix v hsuf hv hvne g getter (by omega)
              · show childLookup _ (offset2key (stem ++ [suffix]) _) = _
                rw [cowChild_fst_depth]
                have hoo : offset2key (stem ++ [suffix]) d.depth = offset2key stem d.depth := by
                  show (stem ++ [suffix]).getD d.depth 0 = stem.getD d.depth 0
                  rw [hdep]
                  exact hkey_at suffix
                rw [hoo]
                show (alookup (aset ((cowChild { d with children := some cs, values := none }
                    (offset2key stem d.depth)).1.children.getD [])
                    (offset2key stem d.depth) (some c2)) (offset2key stem d.depth)).join = _
                rw [alookup_aset_self]
                rfl
          · have h2 := insertAfterResolve_err (fun c => insertAtStem f c stem values resolver)
              { d with children := some cs, values := none } (offset2key stem d.depth) stem values err hcow
            rw [hins] at h2
            exact Option.noConfusion h2
        | leafNd lf =>
          simp only [] at hins
          rw [insertResolveStep_leafNd (fun c => insertAtStem f c stem values resolver)
            resolver { d with children := some cs, values := none } (offset2key stem d.depth)
            stem values lf hjoin] at hins
          cases wfc
          rename_i hL1 hL2 hL3 hL4
          rcases hcow : (cowChild { d with children := some cs, values := none }
              (offset2key stem d.depth)).2 with _ | err
          · rw [insertAfterResolve_ok (fun c => insertAtStem f c stem values resolver)
              { d with children := some cs, values := none } (offset2key stem d.depth)
              stem values hcow] at hins
            have hcl : childLookup (cowChild { d with children := some cs, values := none }
                (offset2key stem d.depth)).1.children (offset2key stem d.depth) =
                some (SN.leafNd lf) := by
              rw [cowChild_fst_children]; exact hjoin
            have hgetD : ((cowChild { d with children := some cs, values := none }
                (offset2key stem d.depth)).1.children.getD []) = cs := by
              rw [cowChild_fst_children]
              rfl
            by_cases heq : equalPaths lf.stem stem
            · -- same stem: in-place leaf update
              rw [insertDispatch_leaf_same (fun c => insertAtStem f c stem values resolver)
                _ (offset2key stem d.depth) stem values lf hcl heq] at hins
              rw [Prod.mk.injEq] at hins
              obtain ⟨hs2, herr⟩ := hins
              subst hs2
              have hlf : lf.stem = stem := by
                have htl : lf.stem.take 31 = lf.stem := by
                  rw [← hL1]; exact List.take_length _
                have hts : stem.take 31 = stem := by
                  rw [← hsl]; exact List.take_length _
                rw [← htl, ← hts]; exact heq
              constructor
              · refine WfS.node _ (aset cs (offset2key stem d.depth)
                    (some (SN.leafNd (leafUpdateML lf values).1))) dep pre
                    ?_ ?_ ?_ ?_ hdlt ?_ ?_ ?_
                · rw [cowChild_fst_values]
                · rw [hgetD]
                · rw [cowChild_fst_unresolved]; exact hunr
                · rw [cowChild_fst_depth]; exact hdep
                · exact aset_keys_nodup _ _ _ hnd
                · intro p hp
                  rcases mem_aset_nodup _ _ _ p hnd hp with h1 | ⟨h1, -⟩
                  · subst h1; rfl
                  · exact hsome p h1
                · intro i cc hmm2
                  rcases mem_aset_nodup _ _ _ (i, some cc) hnd hmm2 with h1 | ⟨h1, -⟩
                  · have hi : i = offset2key stem d.depth := congrArg Prod.fst h1
                    have hc := Option.some.inj (congrArg Prod.snd h1)
                    subst hc
                    subst hi
                    refine WfS.leaf _ _ _ ?_ ?_ ?_ ?_
                    · rw [leafUpdateML_stem]; exact hL1
                    · rw [leafUpdateML_length]; exact hL2
                    · rw [leafUpdateML_depth]; exact hL3
                    · rw [leafUpdateML_stem]; exact hL4
                  · exact hkids i cc h1
              · intro suffix v hsuf hv hvne gf getter hgf
                rcases gf with _ | g
                · omega
                rcases g with _ | g2
                · omega
                rw [snGet_descend (g2 + 1) _ _ getter (SN.leafNd (leafUpdateML lf values).1)
                  (by rw [cowChild_fst_values]) ?_]
                · rw [snGet_leafNd]
                  show Except.ok (leafGet _ _) = _
                  rw [leafGet_at _ stem suffix hsl (by rw [leafUpdateML_stem]; exact hlf)]
                  rw [leafUpdateML_getD lf values suffix v hL2 hsuf hv hvne herr]
                · show childLookup _ (offset2key (stem ++ [suffix]) _) = _
                  rw [cowChild_fst_depth]
                  have hoo : offset2key (stem ++ [suffix]) d.depth = offset2key stem d.depth := by
                    show (stem ++ [suffix]).getD d.depth 0 = stem.getD d.depth 0
                    rw [hdep]
                    exact hkey_at suffix
                  rw [hoo]
                  show (alookup (aset ((cowChild { d with children := some cs, values := none }
                      (offset2key stem d.depth)).1.children.getD [])
                      (offset2key stem d.depth) (some (SN.leafNd (leafUpdateML lf values).1)))
                      (offset2key stem d.depth)).join = _
                  rw [alookup_aset_self]
                  rfl
            · -- different stem: the leaf is pushed down under a new branch
              rw [insertDispatch_leaf_diff (fun c => insertAtStem f c stem values resolver)
                _ (offset2key stem d.depth) stem values lf hcl heq] at hins
              have hd29 : dep + 1 ≤ 30 := by
                by_contra hgt
                have h30 : (31 : Nat) = dep + 1 := by omega
                apply heq
                show lf.stem.take 31 = stem.take 31
                rw [h30, hL4, htake1, hnCh]
              have wfnb : WfS (rerootBranch lf) (dep + 1)
                  (pre ++ [offset2key stem d.depth]) := by
                refine WfS.node _ [(offset2key lf.stem lf.depth,
                    some (SN.leafNd { lf with depth := lf.depth + 1 }))] (dep + 1)
                    (pre ++ [offset2key stem d.depth]) rfl rfl (Or.inl rfl) hL3 hd29
                    ?_ ?_ ?_
                · simp
                · intro p hp
                  rw [List.mem_singleton] at hp
                  subst hp
                  rfl
                · intro i cc hm
                  rw [List.mem_singleton] at hm
                  have hi : i = offset2key lf.stem lf.depth := congrArg Prod.fst hm
                  have hc := Option.some.inj (congrArg Prod.snd hm)
                  subst hc
                  subst hi
                  refine WfS.leaf _ _ _ hL1 hL2 ?_ ?_
                  · show lf.depth + 1 = dep + 1 + 1
                    rw [hL3]
                  · show lf.stem.take (dep + 1 + 1) = _
                    have h31 : dep + 1 < lf.stem.length := by
                      rw [hL1]; omega
                    rw [take_succ_getD 0 lf.stem (dep + 1) h31, hL4]
                    show _ = (pre ++ [offset2key stem d.depth]) ++ [lf.stem.getD lf.depth 0]
                    rw [hL3]
              rcases hrec : insertAtStem f (rerootBranch lf) stem values resolver with ⟨c2, e2⟩
              rw [hrec] at hins
              rw [Prod.mk.injEq] at hins
              obtain ⟨hs2, herr⟩ := hins
              subst herr
              subst hs2
              have htk : stem.take (dep + 1) = pre ++ [offset2key stem d.depth] := by
                rw [htake1, hnCh]
              obtain ⟨wfr, getr⟩ := ih (rerootBranch lf) (dep + 1)
                (pre ++ [offset2key stem d.depth]) stem values resolver c2
                wfnb hsl htk hvl hrec
              constructor
              · refine WfS.node _ (aset cs (offset2key stem d.depth) (some c2)) dep pre
                  ?_ ?_ ?_ ?_ hdlt ?_ ?_ ?_
                · rw [cowChild_fst_values]
                · rw [hgetD]
                · rw [cowChild_fst_unresolved]; exact hunr
                · rw [cowChild_fst_depth]; exact hdep
                · exact aset_keys_nodup _ _ _ hnd
                · intro p hp
                  rcases mem_aset_nodup _ _ _ p hnd hp with h1 | ⟨h1, -⟩
                  · subst h1; rfl
                  · exact hsome p h1
                · intro i cc hmm2
                  rcases mem_aset_nodup _ _ _ (i, some cc) hnd hmm2 with h1 | ⟨h1, -⟩
                  · have hi : i = offset2key stem d.depth := congrArg Prod.fst h1
                    have hc := Option.some.inj (congrArg Prod.snd h1)
                    subst hc
                    subst hi
                    exact wfr
                  · exact hkids i cc h1
              · intro suffix v hsuf hv hvne gf getter hgf
                rcases gf with _ | g
                · omega
                rw [snGet_descend g _ _ getter c2 (by rw [cowChild_fst_values]) ?_]
                · exact getr suffix v hsuf hv hvne g getter (by omega)
                · show childLookup _ (offset2key (stem ++ [suffix]) _) = _
                  rw [cowChild_fst_depth]
                  have hoo : offset2key (stem ++ [suffix]) d.depth = offset2key stem d.depth := by
                    show (stem ++ [suffix]).getD d.depth 0 = stem.getD d.depth 0
                    rw [hdep]
                    exact hkey_at suffix
                  rw [hoo]
                  show (alookup (aset ((cowChild { d with children := some cs, values := none }
                      (offset2key stem d.depth)).1.children.getD [])
                      (offset2key stem d.depth) (some c2)) (offset2key stem d.depth)).join = _
                  rw [alookup_aset_self]
                  rfl
          · have h2 := insertAfterResolve_err (fun c => insertAtStem f c stem values resolver)
              { d with children := some cs, values := none } (offset2key stem d.depth)
              stem values err hcow
            rw [hins] at h2
            exact Option.noConfusion h2

end SL

open SL in
/-- C7: `StatelessNode.Delete` (stateless.go lines 417-420) is literally
`Insert(key, 32 zero bytes)` — the same resulting tree state — and on a
well-formed tree a successful delete makes `Get(key)` return the 32 zero
bytes, while `Get` of a key never written on a fresh tree returns the
absent value `nil` without error, so a deleted key and a never-written
key remain distinguishable. (`LeafNode`/`NewLeafNode`/`equalPaths`
behavior of the children is modelled from the spec §4.3.) -/
theorem claim_C7 (fuel : Nat) (s s2 : SN) (key : Bytes) (resolver : Resolver)
    (hwf : WfS s 0 []) (hk : key.length = 32) (hk31 : key.getD 31 0 < 256)
    (hdel : snDelete fuel s key resolver = (s2, none)) :
    (∀ (f2 : Nat) (t : SN) (k2 : Bytes) (r2 : Resolver),
       snDelete f2 t k2 r2 = snInsert f2 t k2 zero32 r2) ∧
    (∀ (gf : Nat) (getter : Resolver), fuel + 1 ≤ gf →
       (snGet gf s2 key getter).2 = .ok (some zero32)) ∧
    (∀ (g : Nat) (k2 : Bytes) (getter : Resolver),
       (snGet (g + 1) newStateless k2 getter).2 = .ok none) ∧
    some zero32 ≠ (none : Option Bytes) := by
  refine ⟨fun _ _ _ _ => rfl, ?_, fun _ _ _ => rfl, by simp⟩
  have hdel2 : insertAtStem fuel s (key.take 31)
      ((List.replicate 256 (none : Option Bytes)).set (key.getD 31 0) (some zero32))
      resolver = (s2, none) := hdel
  have hlen31 : (key.take 31).length = 31 := by
    rw [List.length_take, hk]
    decide
  have hlen256 : ((List.replicate 256 (none : Option Bytes)).set (key.getD 31 0)
      (some zero32)).length = 256 := by
    rw [List.length_set, List.length_replicate]
  obtain ⟨-, hget⟩ := insertAtStem_wf_get fuel s 0 [] (key.take 31)
    ((List.replicate 256 (none : Option Bytes)).set (key.getD 31 0) (some zero32))
    resolver s2 hwf hlen31 rfl hlen256 hdel2
  intro gf getter hgf
  have hkey : key.take 31 ++ [key.getD 31 0] = key := by
    have h1 := take_succ_getD 0 key 31 (by rw [hk]; omega)
    rw [← h1]
    rw [show (31 + 1 : Nat) = key.length from by rw [hk]]
    exact List.take_length key
  have hgd : ((List.replicate 256 (none : Option Bytes)).set (key.getD 31 0)
      (some zero32)).getD (key.getD 31 0) none = some zero32 :=
    getD_set_self none _ _ _ (by rw [List.length_replicate]; exact hk31)
  have := hget (key.getD 31 0) zero32 hk31 hgd (by decide) gf getter hgf
  rw [hkey] at this
  exact this

open SL in
theorem claim_C7_witness :
    (snGet 41 (snDelete 40 newStateless (List.replicate 32 0) noResolver).1
        (List.replicate 32 0) noResolver).2 = Except.ok (some zero32) ∧
    (snGet 41 newStateless (List.replicate 32 1) noResolver).2 = Except.ok none := by
  have h2 : (snDelete 40 newStateless (List.replicate 32 0) noResolver).2 = none := by
    decide
  have hmain := claim_C7 40 newStateless
    (snDelete 40 newStateless (List.replicate 32 0) noResolver).1
    (List.replicate 32 0) noResolver
    (WfS.node _ [] 0 [] rfl rfl (Or.inr rfl) rfl (by omega) List.nodup_nil
      (fun p hp => absurd hp (List.not_mem_nil p))
      (fun i c h => absurd h (List.not_mem_nil _)))
    (by decide) (by decide)
    (Prod.ext rfl h2)
  exact ⟨hmain.2.1 41 noResolver (by omega),
         hmain.2.2.1 40 (List.replicate 32 1) noResolver⟩

end GoVerkle
